import Mathlib

/-! llmci: glob matching, run gating and the review exchange.

A shallow embedding of `src/llmci.go` (package `main`, the command-line analyzer)
and `src/plugin/llmci.go` (package `plugin`, the golangci-lint plugin).

Go strings are modelled as lists of Unicode characters (`Str`); the inputs are
taken to be valid UTF-8, on which the byte-wise library routines used by the
program (`regexp.QuoteMeta`, `strings.ReplaceAll`) act character by character.
Library routines of the Go standard library are modelled from their documented
behaviour and are grouped in the `Strings`, `Unicode`, `Filepath`, `Fmt` and
`Regexp` namespaces.  The checks of `regexp.Compile` that are not computed (size
limits, encoding) are a parameter `admits` of the functions that compile.  Effects (compiling a pattern, rendering a file, sending a
request, reporting a diagnostic) are made explicit as a trace of events.
-/

set_option linter.dupNamespace false

/-- A Go string, as its sequence of characters. -/
abbrev Str := List Char

/-! ## Standard library: `unicode`, `strings`, `path/filepath`, `fmt` -/

namespace Unicode

/-- Go `unicode.IsSpace`: the Latin-1 spaces `\t \n \v \f \r`, space, U+0085, U+00A0,
and beyond Latin-1 the code points of the `White_Space` table. -/
def IsSpace (r : Char) : Bool :=
  let n := r.toNat
  if n ≤ 0xFF then
    n == 0x09 || n == 0x0A || n == 0x0B || n == 0x0C || n == 0x0D || n == 0x20
      || n == 0x85 || n == 0xA0
  else
    n == 0x1680 || (0x2000 ≤ n && n ≤ 0x200A) || n == 0x2028 || n == 0x2029
      || n == 0x202F || n == 0x205F || n == 0x3000

end Unicode

namespace Strings

/-- Go `strings.TrimSpace`: all leading and trailing white space (as defined by
`unicode.IsSpace`) removed. -/
def TrimSpace (s : Str) : Str :=
  ((s.dropWhile Unicode.IsSpace).reverse.dropWhile Unicode.IsSpace).reverse

/-- Go `strings.Split(s, sep)` for a one-character separator: the pieces of `s`
between the occurrences of `sep`; a string with `n` separators gives `n + 1` pieces. -/
def Split : Str → Char → List Str
  | [], _ => [[]]
  | c :: r, sep =>
    if c = sep then [] :: Split r sep
    else
      match Split r sep with
      | [] => [[c]]
      | h :: t => (c :: h) :: t

/-- The scan of `strings.ReplaceAll` for a non-empty `old`: `skip` counts the characters
of an occurrence of `old` that was just replaced and are still to be passed over. -/
def replaceScan (old new : Str) : Nat → Str → Str
  | _, [] => []
  | skip + 1, _ :: r => replaceScan old new skip r
  | 0, c :: r =>
    if old.isPrefixOf (c :: r) then new ++ replaceScan old new (old.length - 1) r
    else c :: replaceScan old new 0 r

/-- Go `strings.ReplaceAll(s, old, new)`: every non-overlapping occurrence of `old`,
found from left to right, replaced by `new`.  An empty `old` matches before every
character and at the end of the string. -/
def ReplaceAll (s old new : Str) : Str :=
  if old.isEmpty then new ++ s.flatMap (fun c => c :: new)
  else replaceScan old new 0 s

end Strings

namespace Filepath

/-- The separator test of `os.IsPathSeparator` on Unix. -/
def isSep (c : Char) : Bool := c == '/'

/-- Go `filepath.Base` (Unix): the last element of the path, trailing separators
removed first; `"."` for the empty path and `"/"` for a path of separators only. -/
def Base (path : Str) : Str :=
  if path.isEmpty then ['.']
  else
    let stripped := (path.reverse.dropWhile isSep).reverse
    let last := (stripped.reverse.takeWhile (fun c => !isSep c)).reverse
    if last.isEmpty then ['/'] else last

end Filepath

namespace Fmt

/-- Decimal digits of `n`, least significant first, with `fuel` bounding the number of digits. -/
def digitsRev : Nat → Nat → Str
  | 0, _ => []
  | fuel + 1, n =>
    Char.ofNat (48 + n % 10) :: (if n / 10 = 0 then [] else digitsRev fuel (n / 10))

/-- The verb `%d` (and `%v`) of Go `fmt` on a non-negative integer. -/
def decimal (n : Nat) : Str := (digitsRev (n + 1) n).reverse

/-- The UTF-8 encoding of one character, as Go `[]byte(string(r))`. -/
def utf8 (c : Char) : List Nat :=
  let n := c.toNat
  if n < 0x80 then [n]
  else if n < 0x800 then [0xC0 + n / 64, 0x80 + n % 64]
  else if n < 0x10000 then [0xE0 + n / 4096, 0x80 + n / 64 % 64, 0x80 + n % 64]
  else [0xF0 + n / 262144, 0x80 + n / 4096 % 64, 0x80 + n / 64 % 64, 0x80 + n % 64]

/-- The bytes of a string, as Go `[]byte(s)`. -/
def bytes (s : Str) : List Nat := s.flatMap utf8

/-- The verb `%v` of Go `fmt` on a `[]byte`: the bytes in decimal, separated by
blanks, between square brackets (`[123 125]` for the two bytes of `{}`). -/
def bytesV (bs : List Nat) : Str :=
  '[' :: (List.intercalate [' '] (bs.map decimal)) ++ [']']

end Fmt

/-! ## Standard library: `regexp` -/

namespace Regexp

/-- The bytes that `regexp.QuoteMeta` escapes: `\.+*?()|[]{}^$`. -/
def special (c : Char) : Bool :=
  c == '\\' || c == '.' || c == '+' || c == '*' || c == '?' || c == '(' || c == ')'
    || c == '|' || c == '[' || c == ']' || c == '{' || c == '}' || c == '^' || c == '$'

/-- Go `regexp.QuoteMeta`: a backslash put before every special character. -/
def QuoteMeta (s : Str) : Str :=
  s.flatMap (fun c => if special c then ['\\', c] else [c])

/-- A set of characters matched by one regular-expression atom. -/
inductive Cls where
  /-- A literal character. -/
  | lit (c : Char)
  /-- The dot without the `s` flag: any character but the newline. -/
  | anyNotNL
  deriving DecidableEq, Repr

/-- One element of a compiled concatenation. -/
inductive Item where
  /-- The anchor `^` without the `m` flag: the beginning of the text. -/
  | beginText
  /-- The anchor `$` without the `m` flag: the end of the text. -/
  | endText
  /-- One character of the class. -/
  | one (cls : Cls)
  /-- Zero or more characters of the class (`x*`). -/
  | star (cls : Cls)
  deriving DecidableEq, Repr

/-- Whether a character belongs to a class. -/
def Cls.accepts : Cls → Char → Bool
  | .lit c, x => x == c
  | .anyNotNL, x => x != '\n'

/-- The test `c < utf8.RuneSelf && !isalnum(c)` guarding a backslash escape of a
non-word character in `regexp/syntax`. -/
def escapable (c : Char) : Bool :=
  c.toNat < 0x80 && !(c.isAlphanum)

/-- The parser of `regexp/syntax` on the part of the syntax made of literals, escaped
non-word characters, the dot, a star after a one-character atom and the two anchors,
with the atoms parsed so far on a stack (most recent first).  The result is `none`
on a syntax error of that part (a star with nothing to repeat, a star after a star,
a trailing backslash) and on every expression outside it. -/
def parseLoop : Str → List Item → Option (List Item)
  | [], st => some st.reverse
  | c :: r, st =>
    if c = '*' then
      match st with
      | .one cls :: st' => parseLoop r (.star cls :: st')
      | _ => none
    else if c = '\\' then
      match r with
      | e :: r' => if escapable e then parseLoop r' (.one (.lit e) :: st) else none
      | [] => none
    else if c = '^' then parseLoop r (.beginText :: st)
    else if c = '$' then parseLoop r (.endText :: st)
    else if c = '.' then parseLoop r (.one .anyNotNL :: st)
    else if special c then none
    else parseLoop r (.one (.lit c) :: st)

/-- A compiled regular expression: the concatenation of its items. -/
structure Regexp where
  /-- The items in order. -/
  items : List Item
  deriving DecidableEq, Repr

/-- Go `regexp.Compile`, on the syntax handled by `parseLoop`; `none` stands for a
compile error and for an expression outside that syntax.  The checks of the library
that are not computed here, the size limits of `regexp/syntax` (error `expression too
large`) and the validity of the encoding of the expression, are the parameter
`admits`: an expression that the library does not admit does not compile. -/
def Compile (admits : Str → Bool) (expr : Str) : Option Regexp :=
  if admits expr then (parseLoop expr []).map Regexp.mk else none

/-- The repetition `x*` followed by the continuation `k`: stop here, or take one more
character of the class. -/
def starLoop (p : Char → Bool) (k : Bool → Str → Bool) : Bool → Str → Bool
  | atStart, [] => k atStart []
  | atStart, x :: s => k atStart (x :: s) || (p x && starLoop p k false s)

/-- Whether the items match a prefix of `s`; `atStart` tells that `s` is the whole
text (no character precedes it). -/
def matchHere : List Item → Bool → Str → Bool
  | [], _, _ => true
  | .beginText :: r, atStart, s => atStart && matchHere r atStart s
  | .endText :: r, atStart, s => s.isEmpty && matchHere r atStart s
  | .one cls :: r, _, s =>
    match s with
    | [] => false
    | x :: s' => cls.accepts x && matchHere r false s'
  | .star cls :: r, atStart, s => starLoop cls.accepts (matchHere r) atStart s

/-- Whether the items match at some position of the text other than its beginning. -/
def matchLater (items : List Item) : Str → Bool
  | [] => false
  | _ :: s => matchHere items false s || matchLater items s

/-- Go `(*Regexp).MatchString`: whether the text contains a match of the expression. -/
def Regexp.MatchString (re : Regexp) (s : Str) : Bool :=
  matchHere re.items true s || matchLater re.items s

end Regexp

/-! ## The data shared by the two packages

The response types `Message`, `Choice`, `APIError` and `OpenAIResponse` are declared
with the same fields in `src/llmci.go` and in `src/plugin/llmci.go`. -/

/-- The type `Message`: a role and a content. -/
structure Message where
  /-- The field `role`. -/
  Role : Str
  /-- The field `content`. -/
  Content : Str
  deriving DecidableEq, Repr

/-- The type `Choice`: one candidate answer. -/
structure Choice where
  /-- The field `message`. -/
  Message : Message
  deriving DecidableEq, Repr

/-- The type `APIError`: the error object of a response. -/
structure APIError where
  /-- The field `message`. -/
  Message : Str
  /-- The field `type` (Go name `Type`). -/
  Typ : Str
  deriving DecidableEq, Repr

/-- The type `OpenAIResponse`; `Error` is a pointer in Go, `none` being `nil`. -/
structure OpenAIResponse where
  /-- The field `choices`. -/
  Choices : List Choice
  /-- The field `error`. -/
  Error : Option APIError
  deriving DecidableEq, Repr

/-- The result of a fallible Go call: the error text or the value. -/
inductive Res (α : Type) where
  /-- The call returned a non-nil error with this text. -/
  | err (detail : Str)
  /-- The call returned this value and a nil error. -/
  | ok (value : α)
  deriving DecidableEq, Repr

/-- The HTTP request handed to `client.Do`, with the JSON body kept as the value
that `json.Marshal` serialises. -/
structure HttpRequest (Body : Type) where
  /-- The request method. -/
  method : Str
  /-- The target URL. -/
  url : Str
  /-- The header `Content-Type`. -/
  contentType : Str
  /-- The header `Authorization`. -/
  authorization : Str
  /-- The client timeout, in seconds. -/
  timeoutSeconds : Int
  /-- The body. -/
  body : Body
  deriving DecidableEq, Repr

/-- What the outside world makes of one request: the outcome of `http.NewRequest`,
`client.Do`, `io.ReadAll` and `json.Unmarshal`, in the order the program calls them. -/
inductive Exchange where
  /-- The call `http.NewRequest` failed; nothing is sent. -/
  | createFailed (err : Str)
  /-- The call `client.Do` failed (no connection, timeout). -/
  | sendFailed (err : Str)
  /-- The call `io.ReadAll` on the response body failed. -/
  | readFailed (err : Str)
  /-- A response arrived with this status code and body; `decoded` is what
  `json.Unmarshal` makes of the body. -/
  | received (status : Nat) (body : Str) (decoded : Res OpenAIResponse)
  deriving DecidableEq, Repr

/-- A parsed source file of the pass: its position `file.Pos()`, the file name
`pass.Fset.Position(file.Pos()).Filename` and what `format.Node` makes of it. -/
structure SourceFile where
  /-- The position of the file. -/
  pos : Nat
  /-- The name of the file. -/
  filename : Str
  /-- The canonical text written by `format.Node`, or its error. -/
  formatted : Res Str
  deriving DecidableEq, Repr

/-- The part of `analysis.Pass` that the program reads. -/
structure Pass where
  /-- The field `Files`. -/
  Files : List SourceFile
  deriving DecidableEq, Repr

/-- An observable step of a run. -/
inductive Event (Body : Type) where
  /-- The call `regexp.Compile` on this expression. -/
  | compile (expr : Str)
  /-- The call `getFileContent` on the file at this position. -/
  | render (pos : Nat)
  /-- The call `client.Do` with this request. -/
  | send (req : HttpRequest Body)
  /-- The call `pass.Reportf` at this position with this message. -/
  | report (pos : Nat) (msg : Str)
  deriving DecidableEq, Repr

/-- The diagnostics of a trace: the reports, in order. -/
def diagnostics {Body : Type} : List (Event Body) → List (Nat × Str)
  | [] => []
  | .report pos msg :: r => (pos, msg) :: diagnostics r
  | _ :: r => diagnostics r

/-- The network calls of a trace: the requests sent, in order. -/
def networkCalls {Body : Type} : List (Event Body) → List (HttpRequest Body)
  | [] => []
  | .send req :: r => req :: networkCalls r
  | _ :: r => networkCalls r

/-- The error returned by `run`. -/
inductive RunError where
  /-- An error made by `fmt.Errorf` with this text. -/
  | message (text : Str)
  /-- The error `fmt.Errorf("invalid file pattern %q: %v", pattern, err)`, with
  its two arguments left unformatted. -/
  | invalidPattern (pattern : Str)
  deriving DecidableEq, Repr

/-! ## Package `main` (`src/llmci.go`) -/

namespace Main

/-- The flag variables of `src/llmci.go`, passed explicitly. -/
structure Flags where
  /-- The flag `file-patterns`: the patterns, separated by commas. -/
  filePatterns : Str
  /-- The flag `prompt`. -/
  prompt : Str
  /-- The flag `api-url`. -/
  apiURL : Str
  /-- The flag `api-token`. -/
  apiToken : Str
  /-- The flag `timeout`, in seconds. -/
  timeout : Int
  /-- The flag `enabled`. -/
  enabled : Bool
  deriving DecidableEq, Repr

/-- The type `OpenAIRequest` of `src/llmci.go`. -/
structure OpenAIRequest where
  /-- The field `model`. -/
  Model : Str
  /-- The field `messages`. -/
  Messages : List Message
  deriving DecidableEq, Repr

/-- The function `globToRegex` of `src/llmci.go`. -/
def globToRegex (glob : Str) : Str :=
  let regex := Regexp.QuoteMeta glob
  let regex := Strings.ReplaceAll regex ['\\', '*'] ['.', '*']
  let regex := Strings.ReplaceAll regex ['\\', '?'] ['.']
  ['^'] ++ regex ++ ['$']

/-- The function `getFileContent` of `src/llmci.go`: the text written by `format.Node`,
or its error. -/
def getFileContent (file : SourceFile) : Res Str :=
  match file.formatted with
  | .err e => .err e
  | .ok text => .ok text

/-- The request value built at the head of `analyzeWithLLM` (lines 177 to 189). -/
def buildRequest (flags : Flags) (content filename : Str) : OpenAIRequest :=
  { Model := "gpt-3.5-turbo".toList
    Messages :=
      [ { Role := "system".toList, Content := flags.prompt },
        { Role := "user".toList
          Content := "文件名: ".toList ++ filename ++ "\n\n代码内容:\n".toList ++ content } ] }

/-- The function `analyzeWithLLM` of `src/llmci.go`, with the trace of the calls it makes.
`net` gives the outcome of the exchange for the request.  The call `json.Marshal` cannot
fail on an `OpenAIRequest` and its error branch is left out. -/
def analyzeWithLLM (flags : Flags) (net : HttpRequest OpenAIRequest → Exchange)
    (content filename : Str) : Res Str × List (Event OpenAIRequest) :=
  let req := buildRequest flags content filename
  let httpReq : HttpRequest OpenAIRequest :=
    { method := "POST".toList
      url := flags.apiURL
      contentType := "application/json".toList
      authorization := "Bearer ".toList ++ flags.apiToken
      timeoutSeconds := flags.timeout
      body := req }
  match net httpReq with
  | .createFailed err => (.err ("failed to create request: ".toList ++ err), [])
  | .sendFailed err => (.err ("failed to send request: ".toList ++ err), [.send httpReq])
  | .readFailed err => (.err ("failed to read response: ".toList ++ err), [.send httpReq])
  | .received _ _ (.err err) =>
    (.err ("failed to unmarshal response: ".toList ++ err), [.send httpReq])
  | .received _ _ (.ok apiResp) =>
    match apiResp.Error with
    | some apiError => (.err ("API error: ".toList ++ apiError.Message), [.send httpReq])
    | none =>
      match apiResp.Choices with
      | [] => (.err "no choices in response".toList, [.send httpReq])
      | first :: _ => (.ok first.Message.Content, [.send httpReq])

/-- The first loop of `run` (lines 95 to 107): the patterns still to be read and the
matchers compiled so far; the result is the error of an early return or the final
list of matchers, with the trace of the compilations. -/
def compileLoop (admits : Str → Bool) : List Str → List Regexp.Regexp →
    (RunError ⊕ List Regexp.Regexp) × List (Event OpenAIRequest)
  | [], regexps => (.inr regexps, [])
  | pattern :: rest, regexps =>
    let pattern := Strings.TrimSpace pattern
    if pattern = [] then compileLoop admits rest regexps
    else
      let regexPattern := globToRegex pattern
      match Regexp.Compile admits regexPattern with
      | none => (.inl (.invalidPattern pattern), [.compile regexPattern])
      | some regex =>
        let r := compileLoop admits rest (regexps ++ [regex])
        (r.1, .compile regexPattern :: r.2)

/-- The inner loop of `run` (lines 119 to 125): the flag `matched`. -/
def matched : List Regexp.Regexp → Str → Str → Bool
  | [], _, _ => false
  | regex :: rest, basename, filename =>
    if regex.MatchString basename || regex.MatchString filename then true
    else matched rest basename filename

/-- The second loop of `run` (lines 114 to 149), with the trace of its calls.
`net file` gives the outcome of the exchange made while `file` is processed. -/
def fileLoop (flags : Flags) (net : SourceFile → HttpRequest OpenAIRequest → Exchange)
    (regexps : List Regexp.Regexp) : List SourceFile → List (Event OpenAIRequest)
  | [] => []
  | file :: rest =>
    let filename := file.filename
    let basename := Filepath.Base filename
    if !matched regexps basename filename then fileLoop flags net regexps rest
    else
      match getFileContent file with
      | .err err =>
        [.render file.pos, .report file.pos ("failed to get file content: ".toList ++ err)]
          ++ fileLoop flags net regexps rest
      | .ok content =>
        let r := analyzeWithLLM flags (net file) content filename
        match r.1 with
        | .err err =>
          .render file.pos :: r.2
            ++ [.report file.pos ("LLM analysis failed: ".toList ++ err)]
            ++ fileLoop flags net regexps rest
        | .ok analysis =>
          if analysis ≠ [] then
            .render file.pos :: r.2
              ++ [.report file.pos
                    ("LLM Analysis for ".toList ++ basename ++ ":\n".toList ++ analysis)]
              ++ fileLoop flags net regexps rest
          else
            .render file.pos :: r.2 ++ fileLoop flags net regexps rest

/-- The function `run` of `src/llmci.go`: the error it returns (`none` for `nil`) and
the trace of its calls.  `admits` is the parameter of `Regexp.Compile`. -/
def run (admits : Str → Bool) (flags : Flags)
    (net : SourceFile → HttpRequest OpenAIRequest → Exchange)
    (pass : Pass) : Option RunError × List (Event OpenAIRequest) :=
  if !flags.enabled then (none, [])
  else if flags.apiToken = [] then (some (.message "API token is required".toList), [])
  else
    let patterns := Strings.Split flags.filePatterns ','
    match compileLoop admits patterns [] with
    | (.inl e, tr) => (some e, tr)
    | (.inr regexps, tr) =>
      if regexps.length = 0 then
        (some (.message "no valid file patterns specified".toList), tr)
      else (none, tr ++ fileLoop flags net regexps pass.Files)

end Main

/-! ## Package `plugin` (`src/plugin/llmci.go`) -/

namespace Plugin

/-- The type `LLMCiPluginConfig` of `src/plugin/llmci.go`. -/
structure LLMCiPluginConfig where
  /-- The field `file_patterns`. -/
  FilePatterns : List Str
  /-- The field `prompt`. -/
  Prompt : Str
  /-- The field `api_url`. -/
  APIURL : Str
  /-- The field `api_token`. -/
  APIToken : Str
  /-- The field `timeout`, in seconds. -/
  Timeout : Int
  /-- The field `enabled`. -/
  Enabled : Bool
  /-- The field `model`. -/
  Model : Str
  deriving DecidableEq, Repr

/-- The type `OpenAIRequest` of `src/plugin/llmci.go`. -/
structure OpenAIRequest where
  /-- The field `model`. -/
  Model : Str
  /-- The field `messages`. -/
  Messages : List Message
  /-- The field `stream`. -/
  Stream : Bool
  deriving DecidableEq, Repr

/-- The type `LLMCiAnalyzer` of `src/plugin/llmci.go`. -/
structure LLMCiAnalyzer where
  /-- The field `config`. -/
  config : LLMCiPluginConfig
  deriving DecidableEq, Repr

/-- The function `globToRegex` of `src/plugin/llmci.go`. -/
def globToRegex (glob : Str) : Str :=
  let regex := Regexp.QuoteMeta glob
  let regex := Strings.ReplaceAll regex ['\\', '*'] ['.', '*']
  let regex := Strings.ReplaceAll regex ['\\', '?'] ['.']
  ['^'] ++ regex ++ ['$']

/-- The function `getFileContent` of `src/plugin/llmci.go`. -/
def getFileContent (file : SourceFile) : Res Str :=
  match file.formatted with
  | .err e => .err e
  | .ok text => .ok text

/-- The request value built at the head of `analyzeWithLLM` (lines 153 to 165); the
field `Stream` is not set and keeps its zero value. -/
def LLMCiAnalyzer.buildRequest (a : LLMCiAnalyzer) (content filename : Str) : OpenAIRequest :=
  { Model := a.config.Model
    Messages :=
      [ { Role := "system".toList, Content := a.config.Prompt },
        { Role := "user".toList
          Content := "文件名: ".toList ++ filename ++ "\n\n代码内容:\n".toList ++ content } ]
    Stream := false }

/-- The method `analyzeWithLLM` of `src/plugin/llmci.go`, with the trace of the calls
it makes.  The body `respBody` is a `[]byte`, which the verb `%v` prints as a list
of decimal numbers. -/
def LLMCiAnalyzer.analyzeWithLLM (a : LLMCiAnalyzer)
    (net : HttpRequest OpenAIRequest → Exchange)
    (content filename : Str) : Res Str × List (Event OpenAIRequest) :=
  let req := a.buildRequest content filename
  let httpReq : HttpRequest OpenAIRequest :=
    { method := "POST".toList
      url := a.config.APIURL
      contentType := "application/json".toList
      authorization := "Bearer ".toList ++ a.config.APIToken
      timeoutSeconds := a.config.Timeout
      body := req }
  match net httpReq with
  | .createFailed err => (.err ("failed to create request: ".toList ++ err), [])
  | .sendFailed err => (.err ("failed to send request: ".toList ++ err), [.send httpReq])
  | .readFailed err => (.err ("failed to read response: ".toList ++ err), [.send httpReq])
  | .received _ _ (.err err) =>
    (.err ("failed to unmarshal response: ".toList ++ err), [.send httpReq])
  | .received _ respBody (.ok apiResp) =>
    match apiResp.Error with
    | some apiError => (.err ("API error: ".toList ++ apiError.Message), [.send httpReq])
    | none =>
      match apiResp.Choices with
      | [] =>
        (.err ("no choices in response, response: ".toList
            ++ Fmt.bytesV (Fmt.bytes respBody) ++ ", finish".toList), [.send httpReq])
      | first :: _ => (.ok first.Message.Content, [.send httpReq])

/-- The first loop of `run` (lines 71 to 83). -/
def compileLoop (admits : Str → Bool) : List Str → List Regexp.Regexp →
    (RunError ⊕ List Regexp.Regexp) × List (Event OpenAIRequest)
  | [], regexps => (.inr regexps, [])
  | pattern :: rest, regexps =>
    let pattern := Strings.TrimSpace pattern
    if pattern = [] then compileLoop admits rest regexps
    else
      let regexPattern := globToRegex pattern
      match Regexp.Compile admits regexPattern with
      | none => (.inl (.invalidPattern pattern), [.compile regexPattern])
      | some regex =>
        let r := compileLoop admits rest (regexps ++ [regex])
        (r.1, .compile regexPattern :: r.2)

/-- The inner loop of `run` (lines 95 to 101): the flag `matched`. -/
def matched : List Regexp.Regexp → Str → Str → Bool
  | [], _, _ => false
  | regex :: rest, basename, filename =>
    if regex.MatchString basename || regex.MatchString filename then true
    else matched rest basename filename

/-- The second loop of `run` (lines 90 to 125), with the trace of its calls. -/
def LLMCiAnalyzer.fileLoop (a : LLMCiAnalyzer)
    (net : SourceFile → HttpRequest OpenAIRequest → Exchange)
    (regexps : List Regexp.Regexp) : List SourceFile → List (Event OpenAIRequest)
  | [] => []
  | file :: rest =>
    let filename := file.filename
    let basename := Filepath.Base filename
    if !matched regexps basename filename then a.fileLoop net regexps rest
    else
      match getFileContent file with
      | .err err =>
        [.render file.pos, .report file.pos ("failed to get file content: ".toList ++ err)]
          ++ a.fileLoop net regexps rest
      | .ok content =>
        let r := a.analyzeWithLLM (net file) content filename
        match r.1 with
        | .err err =>
          .render file.pos :: r.2
            ++ [.report file.pos ("LLM analysis failed: ".toList ++ err)]
            ++ a.fileLoop net regexps rest
        | .ok analysis =>
          if analysis ≠ [] then
            .render file.pos :: r.2
              ++ [.report file.pos
                    ("LLM Analysis for ".toList ++ basename ++ ":\n".toList ++ analysis)]
              ++ a.fileLoop net regexps rest
          else
            .render file.pos :: r.2 ++ a.fileLoop net regexps rest

/-- The method `run` of `src/plugin/llmci.go`: the error it returns (`none` for `nil`)
and the trace of its calls.  The field `Enabled` of the configuration is not read.
`admits` is the parameter of `Regexp.Compile`. -/
def LLMCiAnalyzer.run (a : LLMCiAnalyzer) (admits : Str → Bool)
    (net : SourceFile → HttpRequest OpenAIRequest → Exchange)
    (pass : Pass) : Option RunError × List (Event OpenAIRequest) :=
  if a.config.APIToken = [] then (some (.message "API token is required".toList), [])
  else
    let patterns := a.config.FilePatterns
    match compileLoop admits patterns [] with
    | (.inl e, tr) => (some e, tr)
    | (.inr regexps, tr) =>
      if regexps.length = 0 then
        (some (.message "no valid file patterns specified".toList), tr)
      else (none, tr ++ a.fileLoop net regexps pass.Files)

end Plugin

/-! ## Glob semantics, as the specification words it -/

/-- Whole-string glob matching: `*` matches any run (possibly empty) of characters
allowed by `wild`, `?` matches exactly one character allowed by `wild`, every other
character of the pattern matches only itself. -/
inductive GlobMatches (wild : Char → Bool) : Str → Str → Prop where
  /-- The empty pattern matches the empty string. -/
  | nil : GlobMatches wild [] []
  /-- A star matches a run of allowed characters. -/
  | star (run : Str) {p s : Str} : (∀ c ∈ run, wild c = true) → GlobMatches wild p s →
      GlobMatches wild ('*' :: p) (run ++ s)
  /-- A question mark matches one allowed character. -/
  | any (c : Char) {p s : Str} : wild c = true → GlobMatches wild p s →
      GlobMatches wild ('?' :: p) (c :: s)
  /-- Any other character matches itself. -/
  | lit (c : Char) {p s : Str} : c ≠ '*' → c ≠ '?' → GlobMatches wild p s →
      GlobMatches wild (c :: p) (c :: s)

/-- The wildcards of the specification: every character is allowed. -/
def anyChar : Char → Bool := fun _ => true

/-- The wildcards of the dot of a Go regular expression: every character but the newline. -/
def notNewline : Char → Bool := fun c => c != '\n'

/-- The translation of one glob character (the test table of `TestGlobToRegex`
spelled out): `*` gives `.*`, `?` gives `.`, another special character is preceded
by a backslash, any other character is copied. -/
def translateChar (c : Char) : Str :=
  if c = '*' then ['.', '*']
  else if c = '?' then ['.']
  else if c ∈ ['\\', '.', '+', '(', ')', '|', '[', ']', '{', '}', '^', '$'] then ['\\', c]
  else [c]

/-- The matcher that `run` compiles for a pattern and applies to a name: `none` when
`regexp.Compile` rejects the translation. -/
def Main.accepts (admits : Str → Bool) (p s : Str) : Option Bool :=
  (Regexp.Compile admits (Main.globToRegex p)).map (fun re => re.MatchString s)

/-- The matcher that the plugin compiles for a pattern and applies to a name. -/
def Plugin.accepts (admits : Str → Bool) (p s : Str) : Option Bool :=
  (Regexp.Compile admits (Plugin.globToRegex p)).map (fun re => re.MatchString s)

/-- The compiled item of one glob character. -/
def itemOf (c : Char) : Regexp.Item :=
  if c = '*' then .star .anyNotNL
  else if c = '?' then .one .anyNotNL
  else .one (.lit c)

/-- The compiled form of a glob pattern: `^`, the items of its characters, `$`. -/
def matcherOf (p : Str) : Regexp.Regexp :=
  ⟨.beginText :: p.map itemOf ++ [.endText]⟩

/-- The quoting of one character by `QuoteMeta`. -/
def quoteChar (c : Char) : Str := if Regexp.special c then ['\\', c] else [c]

/-- The translation of one character after the first `ReplaceAll`. -/
def starChar (c : Char) : Str := if c = '*' then ['.', '*'] else quoteChar c

/-- The renderings of a trace: the positions of the files given to `getFileContent`. -/
def renders {Body : Type} : List (Event Body) → List Nat
  | [] => []
  | .render pos :: r => pos :: renders r
  | _ :: r => renders r

/-- The patterns that are not empty once trimmed, trimmed, in their order. -/
def validPatterns (pats : List Str) : List Str :=
  (pats.map Strings.TrimSpace).filter (fun p => !p.isEmpty)

/-- The diagnostic that one turn of the second loop of `run` reports for a file, if any
(command-line analyzer). -/
def Main.fileDiagnostic (flags : Main.Flags)
    (net : SourceFile → HttpRequest Main.OpenAIRequest → Exchange)
    (regexps : List Regexp.Regexp) (file : SourceFile) : Option (Nat × Str) :=
  if Main.matched regexps (Filepath.Base file.filename) file.filename then
    match Main.getFileContent file with
    | .err err => some (file.pos, "failed to get file content: ".toList ++ err)
    | .ok content =>
      match (Main.analyzeWithLLM flags (net file) content file.filename).1 with
      | .err err => some (file.pos, "LLM analysis failed: ".toList ++ err)
      | .ok analysis =>
        if analysis ≠ [] then
          some (file.pos, "LLM Analysis for ".toList ++ Filepath.Base file.filename
            ++ ":\n".toList ++ analysis)
        else none
  else none

/-- The diagnostic that one turn of the second loop of `run` reports for a file, if any
(plugin). -/
def Plugin.LLMCiAnalyzer.fileDiagnostic (a : Plugin.LLMCiAnalyzer)
    (net : SourceFile → HttpRequest Plugin.OpenAIRequest → Exchange)
    (regexps : List Regexp.Regexp) (file : SourceFile) : Option (Nat × Str) :=
  if Plugin.matched regexps (Filepath.Base file.filename) file.filename then
    match Plugin.getFileContent file with
    | .err err => some (file.pos, "failed to get file content: ".toList ++ err)
    | .ok content =>
      match (a.analyzeWithLLM (net file) content file.filename).1 with
      | .err err => some (file.pos, "LLM analysis failed: ".toList ++ err)
      | .ok analysis =>
        if analysis ≠ [] then
          some (file.pos, "LLM Analysis for ".toList ++ Filepath.Base file.filename
            ++ ":\n".toList ++ analysis)
        else none
  else none

/-- Whether the review of a file comes back with the empty string and no error
(command-line analyzer). -/
def Main.emptyReview (flags : Main.Flags)
    (net : SourceFile → HttpRequest Main.OpenAIRequest → Exchange) (file : SourceFile) : Prop :=
  ∃ content, Main.getFileContent file = .ok content ∧
    (Main.analyzeWithLLM flags (net file) content file.filename).1 = .ok []

/-- Whether the review of a file comes back with the empty string and no error (plugin). -/
def Plugin.LLMCiAnalyzer.emptyReview (a : Plugin.LLMCiAnalyzer)
    (net : SourceFile → HttpRequest Plugin.OpenAIRequest → Exchange) (file : SourceFile) : Prop :=
  ∃ content, Plugin.getFileContent file = .ok content ∧
    (a.analyzeWithLLM (net file) content file.filename).1 = .ok []

/-! ## Sample inputs -/

/-- A library limit that admits the expressions of at most a thousand characters. -/
def admitShort : Str → Bool := fun expr => decide (expr.length ≤ 1000)

/-- Flags of an enabled command-line run with a token and the default pattern. -/
def sampleFlags : Main.Flags :=
  { filePatterns := "*.go".toList
    prompt := "review".toList
    apiURL := "http://localhost/v1".toList
    apiToken := "test-token".toList
    timeout := 30
    enabled := true }

/-- A plugin analyzer with a token and one pattern, its switch `Enabled` off. -/
def sampleAnalyzer : Plugin.LLMCiAnalyzer :=
  { config :=
      { FilePatterns := ["*.go".toList]
        Prompt := "review".toList
        APIURL := "http://localhost/v1".toList
        APIToken := "test-token".toList
        Timeout := 30
        Enabled := false
        Model := "m".toList } }

/-- The error body of `TestAnalyzeWithLLMError`, in one line. -/
def invalidKeyBody : Str :=
  "\x7b\"error\":\x7b\"message\":\"Invalid API key\",\"type\":\"invalid_request_error\"\x7d\x7d".toList

/-- What `json.Unmarshal` makes of `invalidKeyBody`. -/
def invalidKeyResponse : OpenAIResponse :=
  { Choices := []
    Error := some { Message := "Invalid API key".toList, Typ := "invalid_request_error".toList } }

/-- A success body with one choice. -/
def looksFineBody : Str :=
  "\x7b\"choices\":[\x7b\"message\":\x7b\"role\":\"assistant\",\"content\":\"looks fine\"\x7d\x7d]\x7d".toList

/-- What `json.Unmarshal` makes of `looksFineBody`. -/
def looksFineResponse : OpenAIResponse :=
  { Choices := [{ Message := { Role := "assistant".toList, Content := "looks fine".toList } }]
    Error := none }

/-- A success body with an empty list of choices. -/
def noChoicesBody : Str := "\x7b\"choices\":[]\x7d".toList

/-- What `json.Unmarshal` makes of `noChoicesBody`. -/
def noChoicesResponse : OpenAIResponse := { Choices := [], Error := none }

/-- What `json.Unmarshal` makes of `emptyContentBody`. -/
def emptyContentResponse : OpenAIResponse :=
  { Choices := [{ Message := { Role := "assistant".toList, Content := [] } }], Error := none }

/-- A success body whose only choice has an empty content. -/
def emptyContentBody : Str :=
  "\x7b\"choices\":[\x7b\"message\":\x7b\"role\":\"assistant\",\"content\":\"\"\x7d\x7d]\x7d".toList

/-- A pass with the single file `pkg/a.go`. -/
def samplePass : Pass :=
  { Files := [{ pos := 1, filename := "pkg/a.go".toList, formatted := .ok "package a".toList }] }

/-! ## The translation of a glob pattern -/

section Translation

open Strings Regexp

/-- One character that cannot start an occurrence of backslash-`w` is copied by the scan. -/
theorem replaceScan_copy (w : Char) (new : Str) (c : Char) (r : Str)
    (h : c ≠ '\\' ∨ r.head? ≠ some w) :
    replaceScan ['\\', w] new 0 (c :: r) = c :: replaceScan ['\\', w] new 0 r := by
  have hp : List.isPrefixOf ['\\', w] (c :: r) = false := by
    cases r with
    | nil => simp [List.isPrefixOf]
    | cons d r' =>
      rcases h with h | h
      · simp [List.isPrefixOf, Ne.symm h]
      · have hd : w ≠ d := fun e => h (by simp [e])
        simp [List.isPrefixOf, hd]
  simp [replaceScan, hp]

/-- An occurrence of backslash-`w` is replaced by the scan. -/
theorem replaceScan_hit (w : Char) (new : Str) (r : Str) :
    replaceScan ['\\', w] new 0 ('\\' :: w :: r) = new ++ replaceScan ['\\', w] new 0 r := by
  simp [replaceScan, List.isPrefixOf]

theorem special_star : special '*' = true := by decide

theorem special_question : special '?' = true := by decide

theorem special_backslash : special '\\' = true := by decide

/-- A quoted string never starts with a special character other than the backslash. -/
theorem head_quote (g : Str) (w : Char) (hw : special w = true) (hb : w ≠ '\\') :
    (g.flatMap quoteChar).head? ≠ some w := by
  cases g with
  | nil => simp
  | cons c g' =>
    by_cases hc : special c = true
    · simp [quoteChar, hc, Ne.symm hb]
    · simp only [Bool.not_eq_true] at hc
      have : c ≠ w := fun e => by rw [e, hw] at hc; exact absurd hc (by decide)
      simp [quoteChar, hc, this]

/-- After the first pass a string never starts with `?`. -/
theorem head_star (g : Str) : (g.flatMap starChar).head? ≠ some '?' := by
  cases g with
  | nil => simp
  | cons c g' =>
    by_cases hs : c = '*'
    · simp [starChar, hs]
    · by_cases hc : special c = true
      · simp [starChar, hs, quoteChar, hc]
      · simp only [Bool.not_eq_true] at hc
        have : c ≠ '?' := fun e => by rw [e, special_question] at hc; exact absurd hc (by decide)
        simp [starChar, hs, quoteChar, hc, this]

/-- The translation of a character other than the two wildcards is its quoting. -/
theorem translateChar_other (c : Char) (hs : c ≠ '*') (hq : c ≠ '?') :
    translateChar c = quoteChar c := by
  by_cases hc : special c = true
  · have hm : c ∈ ['\\', '.', '+', '(', ')', '|', '[', ']', '{', '}', '^', '$'] := by
      simp only [special, Bool.or_eq_true, beq_iff_eq] at hc
      simp only [List.mem_cons, List.mem_singleton]
      tauto
    simp only [translateChar, quoteChar, hs, hq, hc, if_false, if_true]
    rw [if_pos hm]
  · have hm : c ∉ ['\\', '.', '+', '(', ')', '|', '[', ']', '{', '}', '^', '$'] := by
      intro hm
      apply hc
      simp only [List.mem_cons, List.mem_singleton] at hm
      simp only [special, Bool.or_eq_true, beq_iff_eq]
      simp only [List.not_mem_nil, or_false] at hm
      tauto
    simp only [Bool.not_eq_true] at hc
    simp only [translateChar, quoteChar, hs, hq, hc, if_false]
    rw [if_neg hm]
    simp

/-- The first `ReplaceAll` of `globToRegex` turns each quoted star into `.*` and
leaves everything else, escaped backslashes included, as it is. -/
theorem replace_star (g : Str) :
    replaceScan ['\\', '*'] ['.', '*'] 0 (g.flatMap quoteChar) = g.flatMap starChar := by
  induction g with
  | nil => simp [replaceScan]
  | cons c g ih =>
    have hh := head_quote g '*' special_star (by decide)
    by_cases hs : c = '*'
    · subst hs
      have : quoteChar '*' = ['\\', '*'] := by decide
      simp only [List.flatMap_cons, this, starChar, if_true]
      simpa [ih] using replaceScan_hit '*' ['.', '*'] (g.flatMap quoteChar)
    · by_cases hc : special c = true
      · have h1 : replaceScan ['\\', '*'] ['.', '*'] 0 ('\\' :: c :: g.flatMap quoteChar)
            = '\\' :: replaceScan ['\\', '*'] ['.', '*'] 0 (c :: g.flatMap quoteChar) :=
          replaceScan_copy _ _ _ _ (Or.inr (by simp [hs]))
        have h2 := replaceScan_copy '*' ['.', '*'] c (g.flatMap quoteChar) (Or.inr hh)
        simp [starChar, hs, quoteChar, hc, h1, h2, ih]
      · simp only [Bool.not_eq_true] at hc
        have hb : c ≠ '\\' := fun e => by
          rw [e, special_backslash] at hc; exact absurd hc (by decide)
        have h2 := replaceScan_copy '*' ['.', '*'] c (g.flatMap quoteChar) (Or.inl hb)
        simp [starChar, hs, quoteChar, hc, h2, ih]

/-- The second `ReplaceAll` of `globToRegex` turns each quoted question mark into `.`
and leaves everything else as it is. -/
theorem replace_question (g : Str) :
    replaceScan ['\\', '?'] ['.'] 0 (g.flatMap starChar) = g.flatMap translateChar := by
  induction g with
  | nil => simp [replaceScan]
  | cons c g ih =>
    have hh := head_star g
    by_cases hs : c = '*'
    · subst hs
      have h1 : replaceScan ['\\', '?'] ['.'] 0 ('.' :: '*' :: g.flatMap starChar)
          = '.' :: replaceScan ['\\', '?'] ['.'] 0 ('*' :: g.flatMap starChar) :=
        replaceScan_copy _ _ _ _ (Or.inl (by decide))
      have h2 := replaceScan_copy '?' ['.'] '*' (g.flatMap starChar) (Or.inl (by decide))
      simp [starChar, translateChar, h1, h2, ih]
    · by_cases hq : c = '?'
      · subst hq
        have : quoteChar '?' = ['\\', '?'] := by decide
        have h1 := replaceScan_hit '?' ['.'] (g.flatMap starChar)
        simp [starChar, translateChar, this, h1, ih]
      · by_cases hc : special c = true
        · have h1 : replaceScan ['\\', '?'] ['.'] 0 ('\\' :: c :: g.flatMap starChar)
              = '\\' :: replaceScan ['\\', '?'] ['.'] 0 (c :: g.flatMap starChar) :=
            replaceScan_copy _ _ _ _ (Or.inr (by simp [hq]))
          have h2 := replaceScan_copy '?' ['.'] c (g.flatMap starChar) (Or.inr hh)
          simp [starChar, translateChar_other c hs hq, hs, quoteChar, hc, h1, h2, ih]
        · simp only [Bool.not_eq_true] at hc
          have hb : c ≠ '\\' := fun e => by
            rw [e, special_backslash] at hc; exact absurd hc (by decide)
          have h2 := replaceScan_copy '?' ['.'] c (g.flatMap starChar) (Or.inl hb)
          simp [starChar, translateChar_other c hs hq, hs, quoteChar, hc, h2, ih]

/-- The string returned by `globToRegex`, character by character. -/
theorem globToRegex_eq (g : Str) :
    Main.globToRegex g = '^' :: g.flatMap translateChar ++ ['$'] := by
  have hq : QuoteMeta g = g.flatMap quoteChar := rfl
  simp [Main.globToRegex, ReplaceAll, hq, replace_star, replace_question]

end Translation

/-! ## Compiling and matching a translated pattern -/

section Matching

open Regexp

/-- Every special character may follow a backslash in an expression. -/
theorem escapable_of_special (c : Char) (h : special c = true) : escapable c = true := by
  simp only [special, Bool.or_eq_true, beq_iff_eq] at h
  rcases h with (((((((((((((h | h) | h) | h) | h) | h) | h) | h) | h) | h) | h) | h) | h) | h) <;>
    (subst h; decide)

theorem parseLoop_star (r : Str) (cls : Cls) (st : List Item) :
    parseLoop ('*' :: r) (.one cls :: st) = parseLoop r (.star cls :: st) := by
  rw [parseLoop.eq_def]; simp

theorem parseLoop_dot (r : Str) (st : List Item) :
    parseLoop ('.' :: r) st = parseLoop r (.one .anyNotNL :: st) := by
  rw [parseLoop.eq_def]; simp

theorem parseLoop_begin (r : Str) (st : List Item) :
    parseLoop ('^' :: r) st = parseLoop r (.beginText :: st) := by
  rw [parseLoop.eq_def]; simp

theorem parseLoop_end (r : Str) (st : List Item) :
    parseLoop ('$' :: r) st = parseLoop r (.endText :: st) := by
  rw [parseLoop.eq_def]; simp

theorem parseLoop_escape (e : Char) (r : Str) (st : List Item) (h : escapable e = true) :
    parseLoop ('\\' :: e :: r) st = parseLoop r (.one (.lit e) :: st) := by
  rw [parseLoop.eq_def]; simp [h]

theorem parseLoop_plain (c : Char) (r : Str) (st : List Item) (h : special c = false) :
    parseLoop (c :: r) st = parseLoop r (.one (.lit c) :: st) := by
  have h0 : c ≠ '*' := fun e => by rw [e] at h; exact absurd h (by decide)
  have h1 : c ≠ '\\' := fun e => by rw [e] at h; exact absurd h (by decide)
  have h2 : c ≠ '^' := fun e => by rw [e] at h; exact absurd h (by decide)
  have h3 : c ≠ '$' := fun e => by rw [e] at h; exact absurd h (by decide)
  have h4 : c ≠ '.' := fun e => by rw [e] at h; exact absurd h (by decide)
  rw [parseLoop.eq_def]; simp [h0, h1, h2, h3, h4, h]

/-- The parser reads the translation of a glob pattern item by item. -/
theorem parseLoop_translate (p rest : Str) (st : List Item) :
    parseLoop (p.flatMap translateChar ++ rest) st
      = parseLoop rest ((p.map itemOf).reverse ++ st) := by
  induction p generalizing st with
  | nil => simp
  | cons c p ih =>
    by_cases hs : c = '*'
    · subst hs
      have : translateChar '*' = ['.', '*'] := by decide
      simp only [List.flatMap_cons, this, List.map_cons, List.reverse_cons, List.append_assoc,
        List.cons_append, List.nil_append]
      have hi : itemOf '*' = .star .anyNotNL := by decide
      rw [hi, ← ih, parseLoop_dot, parseLoop_star]
    · by_cases hq : c = '?'
      · subst hq
        have : translateChar '?' = ['.'] := by decide
        simp only [List.flatMap_cons, this, List.map_cons, List.reverse_cons, List.append_assoc,
          List.cons_append, List.nil_append]
        have hi : itemOf '?' = .one .anyNotNL := by decide
        rw [hi, ← ih, parseLoop_dot]
      · have hi : itemOf c = .one (.lit c) := by simp [itemOf, hs, hq]
        simp only [List.flatMap_cons, translateChar_other c hs hq, List.map_cons,
          List.reverse_cons, List.append_assoc, List.cons_append, List.nil_append]
        rw [hi, ← ih]
        by_cases hc : special c = true
        · have he := escapable_of_special c hc
          simp only [quoteChar, hc, if_true, List.cons_append, List.nil_append]
          rw [parseLoop_escape _ _ _ he]
        · simp only [Bool.not_eq_true] at hc
          simp only [quoteChar, hc, List.cons_append, List.nil_append]
          exact parseLoop_plain c _ st hc

/-- The translation of a glob pattern has no syntax error: it compiles, to the matcher
of the pattern, exactly when the library admits it. -/
theorem compile_globToRegex (admits : Str → Bool) (p : Str) :
    Compile admits (Main.globToRegex p)
      = if admits (Main.globToRegex p) then some (matcherOf p) else none := by
  have h := parseLoop_translate p ['$'] [.beginText]
  have h0 : parseLoop (Main.globToRegex p) []
      = parseLoop (p.flatMap translateChar ++ ['$']) [.beginText] := by
    rw [globToRegex_eq, List.cons_append, parseLoop_begin]
  have h1 : parseLoop ['$'] ((p.map itemOf).reverse ++ [.beginText])
      = some (.beginText :: p.map itemOf ++ [.endText]) := by
    rw [parseLoop_end, parseLoop.eq_def]
    simp
  simp [Compile, h0, h, h1, matcherOf]

/-- A translation that compiles is admitted and compiles to the matcher of the pattern. -/
theorem compile_eq_some (admits : Str → Bool) (p : Str) (re : Regexp)
    (h : Compile admits (Main.globToRegex p) = some re) :
    admits (Main.globToRegex p) = true ∧ re = matcherOf p := by
  rw [compile_globToRegex] at h
  by_cases ha : admits (Main.globToRegex p) = true
  · rw [if_pos ha] at h
    exact ⟨ha, (Option.some.inj h).symm⟩
  · rw [if_neg ha] at h
    exact absurd h (by simp)

/-- A translation compiles exactly when the library admits it. -/
theorem compile_ne_none_iff (admits : Str → Bool) (p : Str) :
    Compile admits (Main.globToRegex p) ≠ none ↔ admits (Main.globToRegex p) = true := by
  rw [compile_globToRegex]
  by_cases ha : admits (Main.globToRegex p) = true <;> simp [ha]

/-- A repetition followed by a continuation that ignores the position flag matches
exactly when the string splits into a run of the class and a rest that the continuation
accepts. -/
theorem starLoop_iff (f : Char → Bool) (k : Bool → Str → Bool) (P : Str → Prop)
    (hk : ∀ b s, k b s = true ↔ P s) (b : Bool) (s : Str) :
    starLoop f k b s = true ↔
      ∃ run rest, s = run ++ rest ∧ (∀ c ∈ run, f c = true) ∧ P rest := by
  induction s generalizing b with
  | nil =>
    simp only [starLoop, hk]
    constructor
    · intro h
      exact ⟨[], [], rfl, by simp, h⟩
    · rintro ⟨run, rest, h, -, hp⟩
      have : rest = [] := by
        cases run with
        | nil => simpa using h.symm
        | cons _ _ => simp at h
      rwa [this] at hp
  | cons x s ih =>
    simp only [starLoop, Bool.or_eq_true, Bool.and_eq_true, hk, ih]
    constructor
    · rintro (h | ⟨hx, run, rest, rfl, hr, hp⟩)
      · exact ⟨[], x :: s, rfl, by simp, h⟩
      · refine ⟨x :: run, rest, rfl, ?_, hp⟩
        intro c hc
        rcases List.mem_cons.mp hc with rfl | hc
        · exact hx
        · exact hr c hc
    · rintro ⟨run, rest, h, hr, hp⟩
      cases run with
      | nil =>
        left
        simp only [List.nil_append] at h
        rwa [h]
      | cons y run =>
        right
        simp only [List.cons_append, List.cons.injEq] at h
        obtain ⟨rfl, rfl⟩ := h
        exact ⟨hr x (by simp), run, rest, rfl, fun c hc => hr c (by simp [hc]), hp⟩

theorem glob_nil_iff (w : Char → Bool) (s : Str) : GlobMatches w [] s ↔ s = [] := by
  constructor
  · intro h
    generalize hq : ([] : Str) = q at h
    cases h with
    | nil => rfl
    | star run hr hm => simp at hq
    | any c hc hm => simp at hq
    | lit c h1 h2 hm => simp at hq
  · rintro rfl
    exact .nil

theorem glob_star_iff (w : Char → Bool) (p s : Str) :
    GlobMatches w ('*' :: p) s ↔
      ∃ run rest, s = run ++ rest ∧ (∀ c ∈ run, w c = true) ∧ GlobMatches w p rest := by
  constructor
  · intro h
    generalize hq : ('*' :: p) = q at h
    cases h with
    | nil => simp at hq
    | star run hr hm =>
      simp only [List.cons.injEq, true_and] at hq
      subst hq
      exact ⟨run, _, rfl, hr, hm⟩
    | any c hc hm =>
      simp only [List.cons.injEq] at hq
      exact absurd hq.1 (by decide)
    | lit c h1 h2 hm =>
      simp only [List.cons.injEq] at hq
      exact absurd hq.1.symm h1
  · rintro ⟨run, rest, rfl, hr, hm⟩
    exact .star run hr hm

theorem glob_any_iff (w : Char → Bool) (p s : Str) :
    GlobMatches w ('?' :: p) s ↔
      ∃ c rest, s = c :: rest ∧ w c = true ∧ GlobMatches w p rest := by
  constructor
  · intro h
    generalize hq : ('?' :: p) = q at h
    cases h with
    | nil => simp at hq
    | star run hr hm =>
      simp only [List.cons.injEq] at hq
      exact absurd hq.1 (by decide)
    | any c hc hm =>
      simp only [List.cons.injEq, true_and] at hq
      subst hq
      exact ⟨c, _, rfl, hc, hm⟩
    | lit c h1 h2 hm =>
      simp only [List.cons.injEq] at hq
      exact absurd hq.1.symm h2
  · rintro ⟨c, rest, rfl, hc, hm⟩
    exact .any c hc hm

theorem glob_lit_iff (w : Char → Bool) (c : Char) (h1 : c ≠ '*') (h2 : c ≠ '?') (p s : Str) :
    GlobMatches w (c :: p) s ↔ ∃ rest, s = c :: rest ∧ GlobMatches w p rest := by
  constructor
  · intro h
    generalize hq : (c :: p) = q at h
    cases h with
    | nil => simp at hq
    | star run hr hm =>
      simp only [List.cons.injEq] at hq
      exact absurd hq.1 h1
    | any d hc hm =>
      simp only [List.cons.injEq] at hq
      exact absurd hq.1 h2
    | lit d _ _ hm =>
      simp only [List.cons.injEq] at hq
      obtain ⟨rfl, rfl⟩ := hq
      exact ⟨_, rfl, hm⟩
  · rintro ⟨rest, rfl, hm⟩
    exact .lit c h1 h2 hm

/-- The items of a glob pattern followed by the end anchor match a string exactly when
the whole string matches the pattern, the wildcards standing for characters other
than the newline. -/
theorem matchHere_glob (p : Str) (b : Bool) (s : Str) :
    matchHere (p.map itemOf ++ [.endText]) b s = true ↔ GlobMatches notNewline p s := by
  induction p generalizing b s with
  | nil =>
    rw [glob_nil_iff]
    cases s <;> simp [matchHere]
  | cons c p ih =>
    by_cases hs : c = '*'
    · subst hs
      have hi : itemOf '*' = .star .anyNotNL := by decide
      rw [glob_star_iff, List.map_cons, hi, List.cons_append, matchHere]
      exact starLoop_iff _ _ _ (fun b s => ih b s) b s
    · by_cases hq : c = '?'
      · subst hq
        have hi : itemOf '?' = .one .anyNotNL := by decide
        rw [glob_any_iff, List.map_cons, hi, List.cons_append]
        cases s with
        | nil => simp [matchHere]
        | cons x s =>
          simp only [matchHere, Bool.and_eq_true, ih, List.cons.injEq]
          constructor
          · rintro ⟨hx, hm⟩
            exact ⟨x, s, ⟨rfl, rfl⟩, hx, hm⟩
          · rintro ⟨d, rest, ⟨rfl, rfl⟩, hx, hm⟩
            exact ⟨hx, hm⟩
      · have hi : itemOf c = .one (.lit c) := by simp [itemOf, hs, hq]
        rw [glob_lit_iff _ c hs hq, List.map_cons, hi, List.cons_append]
        cases s with
        | nil => simp [matchHere]
        | cons x s =>
          simp only [matchHere, Bool.and_eq_true, ih, List.cons.injEq, Cls.accepts, beq_iff_eq]
          constructor
          · rintro ⟨rfl, hm⟩
            exact ⟨s, ⟨rfl, rfl⟩, hm⟩
          · rintro ⟨rest, ⟨rfl, rfl⟩, hm⟩
            exact ⟨rfl, hm⟩

/-- An expression that starts with `^` matches nowhere but at the beginning of the text. -/
theorem matchLater_begin (items : List Item) (s : Str) :
    matchLater (.beginText :: items) s = false := by
  induction s with
  | nil => rfl
  | cons x s ih => simp [matchLater, matchHere, ih]

/-- The matcher of a glob pattern accepts exactly the strings that match the pattern as
a whole, the wildcards standing for characters other than the newline. -/
theorem matcherOf_matchString (p s : Str) :
    (matcherOf p).MatchString s = true ↔ GlobMatches notNewline p s := by
  simp only [Regexp.MatchString, matcherOf, List.cons_append, matchLater_begin, Bool.or_false,
    matchHere, Bool.true_and]
  exact matchHere_glob p true s

/-- The two wildcard conventions agree on a string without a newline. -/
theorem glob_anyChar_iff (p s : Str) (hs : '\n' ∉ s) :
    GlobMatches anyChar p s ↔ GlobMatches notNewline p s := by
  constructor
  · intro h
    induction h with
    | nil => exact .nil
    | star run hr _ ih =>
      refine .star run (fun c hc => ?_) (ih (fun hm => hs (List.mem_append_right _ hm)))
      have : c ≠ '\n' := fun e => hs (List.mem_append_left _ (e ▸ hc))
      simp [notNewline, this]
    | any c _ _ ih =>
      refine .any c ?_ (ih (fun hm => hs (List.mem_cons_of_mem _ hm)))
      have : c ≠ '\n' := fun e => hs (by simp [e])
      simp [notNewline, this]
    | lit c h1 h2 _ ih => exact .lit c h1 h2 (ih (fun hm => hs (List.mem_cons_of_mem _ hm)))
  · intro h
    clear hs
    induction h with
    | nil => exact .nil
    | star run _ _ ih => exact .star run (fun _ _ => rfl) ih
    | any c _ _ ih => exact .any c rfl ih
    | lit c h1 h2 _ ih => exact .lit c h1 h2 ih

end Matching

/-! ## The claims on the translation and on the matcher -/

/-- Claim C1, as stated, fails on a newline: under the glob semantics of the claim the
pattern `*` matches the one-character name made of a newline, and the matcher compiled
from the translation of `*`, whenever it compiles, rejects that name; so it does under
a library limit that admits short expressions. -/
theorem star_rejects_newline :
    GlobMatches anyChar "*".toList "\n".toList ∧
      (∀ (admits : Str → Bool) (re : Regexp.Regexp),
        Regexp.Compile admits (Main.globToRegex "*".toList) = some re →
          re.MatchString "\n".toList = false) ∧
      Main.accepts admitShort "*".toList "\n".toList = some false := by
  refine ⟨?_, fun admits re h => ?_, by decide⟩
  · have h : GlobMatches anyChar ('*' :: []) ("\n".toList ++ []) :=
      GlobMatches.star "\n".toList (fun _ _ => rfl) GlobMatches.nil
    simpa using h
  · rw [(compile_eq_some admits _ re h).2]
    decide

/-- Claim C1, amended: for every glob pattern whose translation compiles and every name,
the compiled matcher accepts the name exactly when the whole name matches the pattern,
where `*` matches any run (possibly empty) of characters other than the newline, `?`
matches exactly one character other than the newline and every other character matches
only itself; the plugin copy compiles to the same matcher, and the matchers compiled
for the sample patterns of the claim accept or reject its sample names as it says. -/
theorem accepts_iff_globMatches (admits : Str → Bool) (p s : Str) (re : Regexp.Regexp)
    (h : Regexp.Compile admits (Main.globToRegex p) = some re) :
    (re.MatchString s = true ↔ GlobMatches notNewline p s) ∧
    Main.accepts admits p s = some (re.MatchString s) ∧
    Regexp.Compile admits (Plugin.globToRegex p) = some re ∧
    Plugin.accepts admits p s = some (re.MatchString s) ∧
    (∀ (lim : Str → Bool) (m : Regexp.Regexp),
      Regexp.Compile lim (Main.globToRegex "test?.go".toList) = some m →
        m.MatchString "test1.go".toList = true ∧ m.MatchString "test12.go".toList = false ∧
          m.MatchString "atest1.go".toList = false) ∧
    (∀ (lim : Str → Bool) (m : Regexp.Regexp),
      Regexp.Compile lim (Main.globToRegex "a.b*.go".toList) = some m →
        m.MatchString "axbfoo.go".toList = false) ∧
    (∀ (lim : Str → Bool) (m : Regexp.Regexp),
      Regexp.Compile lim (Main.globToRegex "*_test*.go".toList) = some m →
        m.MatchString "foo_test_bar.go".toList = true) := by
  have hre := (compile_eq_some admits p re h).2
  have hp : Regexp.Compile admits (Plugin.globToRegex p) = some re := h
  refine ⟨?_, ?_, hp, ?_, fun lim m hm => ?_, fun lim m hm => ?_, fun lim m hm => ?_⟩
  · rw [hre]
    exact matcherOf_matchString p s
  · simp [Main.accepts, h]
  · simp [Plugin.accepts, hp]
  · rw [(compile_eq_some lim _ m hm).2]
    decide
  · rw [(compile_eq_some lim _ m hm).2]
    decide
  · rw [(compile_eq_some lim _ m hm).2]
    decide

/-- Claim C1, amended, on the pattern `test?.go` and the name `test1.go` under a library
limit that admits short expressions. -/
theorem accepts_iff_globMatches_witness :
    Regexp.Compile admitShort (Main.globToRegex "test?.go".toList)
        = some (matcherOf "test?.go".toList) ∧
      ((matcherOf "test?.go".toList).MatchString "test1.go".toList = true ↔
        GlobMatches notNewline "test?.go".toList "test1.go".toList) ∧
      Main.accepts admitShort "test?.go".toList "test1.go".toList = some true := by
  have hc : Regexp.Compile admitShort (Main.globToRegex "test?.go".toList)
      = some (matcherOf "test?.go".toList) := by decide
  have h := accepts_iff_globMatches admitShort "test?.go".toList "test1.go".toList
    (matcherOf "test?.go".toList) hc
  exact ⟨hc, h.1, by decide⟩

/-- On names without a newline a compiled matcher follows the glob semantics with
unrestricted wildcards. -/
theorem accepts_iff_globMatches_of_no_newline (admits : Str → Bool) (p s : Str)
    (re : Regexp.Regexp) (h : Regexp.Compile admits (Main.globToRegex p) = some re)
    (hs : '\n' ∉ s) :
    re.MatchString s = true ↔ GlobMatches anyChar p s := by
  rw [glob_anyChar_iff p s hs, (compile_eq_some admits p re h).2]
  exact matcherOf_matchString p s

/-- Claim C2: for every glob string, `globToRegex` returns `^`, then the translation of
the string character by character (`*` to `.*`, `?` to `.`, any other special character
to a backslash and itself, any other character unchanged), then `$`; an escaped backslash
is never rewritten; the four strings of `TestGlobToRegex` are translated as the test
expects; the plugin copy returns the same string. -/
theorem globToRegex_translation :
    (∀ g : Str, Main.globToRegex g = "^".toList ++ g.flatMap translateChar ++ "$".toList) ∧
    (∀ g : Str, Plugin.globToRegex g = Main.globToRegex g) ∧
    translateChar '\\' = "\\\\".toList ∧
    Main.globToRegex "\\*".toList = "^\\\\.*$".toList ∧
    Main.globToRegex "*.go".toList = "^.*\\.go$".toList ∧
    Main.globToRegex "test?.go".toList = "^test.\\.go$".toList ∧
    Main.globToRegex "main.go".toList = "^main\\.go$".toList ∧
    Main.globToRegex "*_test*.go".toList = "^.*_test.*\\.go$".toList := by
  refine ⟨fun g => ?_, fun _ => rfl, by decide, by decide, by decide, by decide, by decide,
    by decide⟩
  simpa using globToRegex_eq g

/-! ## The claims on the review exchange -/

/-- Claim C3: when the body of the response decodes to a value with an error object,
`analyzeWithLLM` fails, whatever the status code and the list of choices, and the detail
of the failure is `API error: ` followed by the message of the error object, which it
therefore contains verbatim; in the command-line client and in the plugin. -/
theorem analyzeWithLLM_error_object (flags : Main.Flags) (a : Plugin.LLMCiAnalyzer)
    (content filename : Str) (status : Nat) (body : Str) (resp : OpenAIResponse)
    (e : APIError) (h : resp.Error = some e) :
    (Main.analyzeWithLLM flags (fun _ => .received status body (.ok resp)) content filename).1
        = .err ("API error: ".toList ++ e.Message) ∧
      (a.analyzeWithLLM (fun _ => .received status body (.ok resp)) content filename).1
        = .err ("API error: ".toList ++ e.Message) ∧
      e.Message <:+: "API error: ".toList ++ e.Message := by
  refine ⟨?_, ?_, (List.suffix_append _ _).isInfix⟩
  · simp [Main.analyzeWithLLM, h]
  · simp [Plugin.LLMCiAnalyzer.analyzeWithLLM, h]

/-- Claim C3 on the response of `TestAnalyzeWithLLMError`: status 400 and the
`Invalid API key` error object. -/
theorem analyzeWithLLM_error_object_witness :
    invalidKeyResponse.Error
        = some { Message := "Invalid API key".toList, Typ := "invalid_request_error".toList } ∧
      (Main.analyzeWithLLM sampleFlags
          (fun _ => .received 400 invalidKeyBody (.ok invalidKeyResponse))
          "package main".toList "test.go".toList).1
        = .err "API error: Invalid API key".toList ∧
      "Invalid API key".toList <:+: "API error: Invalid API key".toList := by
  have h := analyzeWithLLM_error_object sampleFlags sampleAnalyzer "package main".toList
    "test.go".toList 400 invalidKeyBody invalidKeyResponse
    { Message := "Invalid API key".toList, Typ := "invalid_request_error".toList } rfl
  exact ⟨rfl, h.1, h.2.2⟩

/-- Claim C4: when the body of the response decodes to a value with no error object and
a non-empty list of choices, `analyzeWithLLM` succeeds and returns the content of the
message of the first choice unchanged, whatever the later choices; an empty content
is returned as the empty string, with no error; in the command-line client and in the
plugin. -/
theorem analyzeWithLLM_first_choice (flags : Main.Flags) (a : Plugin.LLMCiAnalyzer)
    (content filename : Str) (status : Nat) (body : Str) (resp : OpenAIResponse)
    (first : Choice) (more : List Choice)
    (he : resp.Error = none) (hc : resp.Choices = first :: more) :
    (Main.analyzeWithLLM flags (fun _ => .received status body (.ok resp)) content filename).1
        = .ok first.Message.Content ∧
      (a.analyzeWithLLM (fun _ => .received status body (.ok resp)) content filename).1
        = .ok first.Message.Content := by
  constructor
  · simp [Main.analyzeWithLLM, he, hc]
  · simp [Plugin.LLMCiAnalyzer.analyzeWithLLM, he, hc]

/-- Claim C4 on a response with the single choice `looks fine`. -/
theorem analyzeWithLLM_first_choice_witness :
    (looksFineResponse.Error = none ∧ looksFineResponse.Choices ≠ []) ∧
      (Main.analyzeWithLLM sampleFlags
          (fun _ => .received 200 looksFineBody (.ok looksFineResponse))
          "package main".toList "test.go".toList).1
        = .ok "looks fine".toList := by
  have h := analyzeWithLLM_first_choice sampleFlags sampleAnalyzer "package main".toList
    "test.go".toList 200 looksFineBody looksFineResponse
    { Message := { Role := "assistant".toList, Content := "looks fine".toList } } [] rfl rfl
  exact ⟨⟨rfl, by decide⟩, h.1⟩

set_option maxRecDepth 100000 in
/-- Claim C5 at the body `{"choices":[]}`: both clients fail, the command-line client
with the detail `no choices in response`, which has no trace of the body, and the
plugin with a detail that lists the bytes of the body in decimal; neither detail
contains the text of the body. -/
theorem no_choices_detail :
    (Main.analyzeWithLLM sampleFlags
        (fun _ => .received 200 noChoicesBody (.ok noChoicesResponse))
        "package main".toList "test.go".toList).1
      = .err "no choices in response".toList ∧
    ¬ noChoicesBody <:+: "no choices in response".toList ∧
    (sampleAnalyzer.analyzeWithLLM
        (fun _ => .received 200 noChoicesBody (.ok noChoicesResponse))
        "package main".toList "test.go".toList).1
      = .err ("no choices in response, response: "
          ++ "[123 34 99 104 111 105 99 101 115 34 58 91 93 125], finish").toList ∧
    ¬ noChoicesBody <:+: ("no choices in response, response: "
          ++ "[123 34 99 104 111 105 99 101 115 34 58 91 93 125], finish").toList := by
  refine ⟨by decide, by decide, by decide, by decide⟩

/-! ## The first loop of `run` and its gates -/

theorem diagnostics_append {Body : Type} (t u : List (Event Body)) :
    diagnostics (t ++ u) = diagnostics t ++ diagnostics u := by
  induction t with
  | nil => rfl
  | cons e t ih => cases e <;> simp [diagnostics, ih]

theorem renders_append {Body : Type} (t u : List (Event Body)) :
    renders (t ++ u) = renders t ++ renders u := by
  induction t with
  | nil => rfl
  | cons e t ih => cases e <;> simp [renders, ih]

theorem validPatterns_cons_blank (p : Str) (pats : List Str) (h : Strings.TrimSpace p = []) :
    validPatterns (p :: pats) = validPatterns pats := by
  simp [validPatterns, h]

theorem validPatterns_cons_valid (p : Str) (pats : List Str) (h : Strings.TrimSpace p ≠ []) :
    validPatterns (p :: pats) = Strings.TrimSpace p :: validPatterns pats := by
  simp [validPatterns, h]

/-- No pattern is valid when every pattern trims to the empty string. -/
theorem validPatterns_blank (pats : List Str) (h : ∀ p ∈ pats, Strings.TrimSpace p = []) :
    validPatterns pats = [] := by
  simp only [validPatterns, List.filter_eq_nil_iff, List.mem_map]
  rintro q ⟨p, hp, rfl⟩
  simp [h p hp]

/-- Some pattern is valid when some pattern does not trim to the empty string. -/
theorem validPatterns_ne_nil (pats : List Str) (p : Str) (hp : p ∈ pats)
    (h : Strings.TrimSpace p ≠ []) : validPatterns pats ≠ [] := by
  intro he
  have hm : Strings.TrimSpace p ∈ validPatterns pats := by
    simp only [validPatterns, List.mem_filter, List.mem_map]
    exact ⟨⟨p, hp, rfl⟩, by simpa using h⟩
  rw [he] at hm
  simp at hm

/-- The first loop of the command-line `run` completes when the library admits the
translation of every valid pattern: it compiles the valid patterns in their order and
appends their matchers. -/
theorem main_compileLoop_ok (admits : Str → Bool) (pats : List Str)
    (acc : List Regexp.Regexp)
    (h : ∀ p ∈ validPatterns pats, admits (Main.globToRegex p) = true) :
    Main.compileLoop admits pats acc
      = (.inr (acc ++ (validPatterns pats).map matcherOf),
          (validPatterns pats).map (fun p => Event.compile (Main.globToRegex p))) := by
  induction pats generalizing acc with
  | nil => simp [Main.compileLoop, validPatterns]
  | cons p pats ih =>
    by_cases hp : Strings.TrimSpace p = []
    · rw [validPatterns_cons_blank p pats hp] at h ⊢
      simp [Main.compileLoop, hp, ih acc h]
    · rw [validPatterns_cons_valid p pats hp] at h ⊢
      have hh := h _ (List.mem_cons_self _ _)
      have ht := ih (acc ++ [matcherOf (Strings.TrimSpace p)])
        (fun q hq => h q (List.mem_cons_of_mem _ hq))
      simp [Main.compileLoop, hp, compile_globToRegex, hh, ht]

/-- The first loop of the plugin `run` completes when the library admits the translation
of every valid pattern. -/
theorem plugin_compileLoop_ok (admits : Str → Bool) (pats : List Str)
    (acc : List Regexp.Regexp)
    (h : ∀ p ∈ validPatterns pats, admits (Plugin.globToRegex p) = true) :
    Plugin.compileLoop admits pats acc
      = (.inr (acc ++ (validPatterns pats).map matcherOf),
          (validPatterns pats).map (fun p => Event.compile (Plugin.globToRegex p))) := by
  have hc : ∀ q, Regexp.Compile admits (Plugin.globToRegex q)
      = if admits (Plugin.globToRegex q) then some (matcherOf q) else none :=
    fun q => compile_globToRegex admits q
  induction pats generalizing acc with
  | nil => simp [Plugin.compileLoop, validPatterns]
  | cons p pats ih =>
    by_cases hp : Strings.TrimSpace p = []
    · rw [validPatterns_cons_blank p pats hp] at h ⊢
      simp [Plugin.compileLoop, hp, ih acc h]
    · rw [validPatterns_cons_valid p pats hp] at h ⊢
      have hh := h _ (List.mem_cons_self _ _)
      have ht := ih (acc ++ [matcherOf (Strings.TrimSpace p)])
        (fun q hq => h q (List.mem_cons_of_mem _ hq))
      simp [Plugin.compileLoop, hp, hc, hh, ht]

/-- The first loop of the command-line `run` returns the error `invalid file pattern`,
for a valid pattern whose translation is not admitted, when there is such a pattern;
it has reported nothing by then. -/
theorem main_compileLoop_fail (admits : Str → Bool) (pats : List Str)
    (acc : List Regexp.Regexp)
    (h : ∃ p ∈ validPatterns pats, admits (Main.globToRegex p) = false) :
    ∃ p ∈ validPatterns pats, admits (Main.globToRegex p) = false ∧
      (Main.compileLoop admits pats acc).1 = .inl (.invalidPattern p) ∧
      diagnostics (Main.compileLoop admits pats acc).2 = [] := by
  induction pats generalizing acc with
  | nil =>
    obtain ⟨p, hp, -⟩ := h
    simp [validPatterns] at hp
  | cons p pats ih =>
    by_cases hp : Strings.TrimSpace p = []
    · rw [validPatterns_cons_blank p pats hp] at h ⊢
      obtain ⟨q, hq, hqa, hr, hd⟩ := ih acc h
      exact ⟨q, hq, hqa, by simpa [Main.compileLoop, hp] using hr,
        by simpa [Main.compileLoop, hp] using hd⟩
    · rw [validPatterns_cons_valid p pats hp] at h ⊢
      by_cases hh : admits (Main.globToRegex (Strings.TrimSpace p)) = true
      · have h' : ∃ q ∈ validPatterns pats, admits (Main.globToRegex q) = false := by
          obtain ⟨q, hq, hqa⟩ := h
          rcases List.mem_cons.mp hq with rfl | hq
          · rw [hh] at hqa
            exact absurd hqa (by simp)
          · exact ⟨q, hq, hqa⟩
        obtain ⟨q, hq, hqa, hr, hd⟩ := ih (acc ++ [matcherOf (Strings.TrimSpace p)]) h'
        refine ⟨q, List.mem_cons_of_mem _ hq, hqa, ?_, ?_⟩
        · simpa [Main.compileLoop, hp, compile_globToRegex, hh] using hr
        · simpa [Main.compileLoop, hp, compile_globToRegex, hh, diagnostics] using hd
      · simp only [Bool.not_eq_true] at hh
        refine ⟨Strings.TrimSpace p, List.mem_cons_self _ _, hh, ?_, ?_⟩
        · simp [Main.compileLoop, hp, compile_globToRegex, hh]
        · simp [Main.compileLoop, hp, compile_globToRegex, hh, diagnostics]

/-- The result of the first loop is the same in the two packages. -/
theorem plugin_compileLoop_fst (admits : Str → Bool) (pats : List Str)
    (acc : List Regexp.Regexp) :
    (Plugin.compileLoop admits pats acc).1 = (Main.compileLoop admits pats acc).1 := by
  have hg : ∀ q, Plugin.globToRegex q = Main.globToRegex q := fun _ => rfl
  induction pats generalizing acc with
  | nil => rfl
  | cons p pats ih =>
    by_cases hp : Strings.TrimSpace p = []
    · simp [Plugin.compileLoop, Main.compileLoop, hp, ih]
    · cases hc : Regexp.Compile admits (Main.globToRegex (Strings.TrimSpace p)) with
      | none => simp [Plugin.compileLoop, Main.compileLoop, hp, hg, hc]
      | some re => simp [Plugin.compileLoop, Main.compileLoop, hp, hg, hc, ih]

/-- When the first loop completes, its matchers are the matchers of the valid patterns,
in their order, and the library admits the translation of each. -/
theorem main_compileLoop_inr (admits : Str → Bool) (pats : List Str)
    (regexps : List Regexp.Regexp)
    (h : (Main.compileLoop admits pats []).1 = .inr regexps) :
    regexps = (validPatterns pats).map matcherOf ∧
      ∀ p ∈ validPatterns pats, admits (Main.globToRegex p) = true := by
  by_cases hall : ∀ p ∈ validPatterns pats, admits (Main.globToRegex p) = true
  · rw [main_compileLoop_ok admits pats [] hall] at h
    simp only [List.nil_append, Sum.inr.injEq] at h
    exact ⟨h.symm, hall⟩
  · have hex : ∃ p ∈ validPatterns pats, admits (Main.globToRegex p) = false := by
      by_contra hne
      apply hall
      intro p hp
      by_contra hp'
      exact hne ⟨p, hp, by simpa using hp'⟩
    obtain ⟨q, -, -, hr, -⟩ := main_compileLoop_fail admits pats [] hex
    rw [hr] at h
    exact absurd h (by simp)

/-- One matcher for each valid pattern, in the same order, each the compiled translation
of its pattern. -/
theorem forall₂_matcherOf (admits : Str → Bool) (ps : List Str)
    (h : ∀ p ∈ ps, admits (Main.globToRegex p) = true) :
    List.Forall₂ (fun p re => Regexp.Compile admits (Main.globToRegex p) = some re)
      ps (ps.map matcherOf) := by
  rw [List.forall₂_map_right_iff, List.forall₂_same]
  intro p hp
  rw [compile_globToRegex, if_pos (h p hp)]

/-- A command-line run that is past its gates and whose valid patterns are admitted goes
on to the files. -/
theorem main_run_ok (admits : Str → Bool) (flags : Main.Flags)
    (net : SourceFile → HttpRequest Main.OpenAIRequest → Exchange) (pass : Pass)
    (he : flags.enabled = true) (ht : flags.apiToken ≠ [])
    (hadm : ∀ p ∈ validPatterns (Strings.Split flags.filePatterns ','),
      admits (Main.globToRegex p) = true)
    (hn : validPatterns (Strings.Split flags.filePatterns ',') ≠ []) :
    Main.run admits flags net pass
      = (none,
          (validPatterns (Strings.Split flags.filePatterns ',')).map
              (fun p => Event.compile (Main.globToRegex p))
            ++ Main.fileLoop flags net
                ((validPatterns (Strings.Split flags.filePatterns ',')).map matcherOf)
                pass.Files) := by
  simp [Main.run, he, ht, main_compileLoop_ok admits _ [] hadm, hn]

/-- A plugin run that is past its gate and whose valid patterns are admitted goes on to
the files. -/
theorem plugin_run_ok (admits : Str → Bool) (a : Plugin.LLMCiAnalyzer)
    (net : SourceFile → HttpRequest Plugin.OpenAIRequest → Exchange) (pass : Pass)
    (ht : a.config.APIToken ≠ [])
    (hadm : ∀ p ∈ validPatterns a.config.FilePatterns, admits (Plugin.globToRegex p) = true)
    (hn : validPatterns a.config.FilePatterns ≠ []) :
    a.run admits net pass
      = (none,
          (validPatterns a.config.FilePatterns).map
              (fun p => Event.compile (Plugin.globToRegex p))
            ++ a.fileLoop net ((validPatterns a.config.FilePatterns).map matcherOf)
                pass.Files) := by
  simp [Plugin.LLMCiAnalyzer.run, ht, plugin_compileLoop_ok admits _ [] hadm, hn]

/-- Claim C6 on the code: the command-line `run` with the switch off returns no error
and does nothing, for every configuration, endpoint and list of files; the plugin
`run` does not read `Enabled`: with the switch off and a token it compiles the pattern
`*.go` (whenever the library admits its translation), sends the file `pkg/a.go` to the
endpoint and reports a diagnostic, and with the switch off and no token it returns the
error `API token is required`. -/
theorem plugin_run_ignores_enabled :
    (∀ (admits : Str → Bool) (flags : Main.Flags)
        (net : SourceFile → HttpRequest Main.OpenAIRequest → Exchange) (pass : Pass),
        Main.run admits { flags with enabled := false } net pass = (none, [])) ∧
    sampleAnalyzer.config.Enabled = false ∧
    (∀ admits : Str → Bool, admits (Plugin.globToRegex "*.go".toList) = true →
      (sampleAnalyzer.run admits
          (fun _ _ => .received 200 looksFineBody (.ok looksFineResponse)) samplePass).1
        = none ∧
      diagnostics (sampleAnalyzer.run admits
          (fun _ _ => .received 200 looksFineBody (.ok looksFineResponse)) samplePass).2
        = [(1, "LLM Analysis for a.go:\nlooks fine".toList)] ∧
      (networkCalls (sampleAnalyzer.run admits
          (fun _ _ => .received 200 looksFineBody (.ok looksFineResponse)) samplePass).2).length
        = 1) ∧
    (∀ admits : Str → Bool,
      Plugin.LLMCiAnalyzer.run { config := { sampleAnalyzer.config with APIToken := [] } } admits
          (fun _ _ => .received 200 looksFineBody (.ok looksFineResponse)) samplePass
        = (some (.message "API token is required".toList), [])) := by
  refine ⟨fun admits flags net pass => ?_, rfl, fun admits hadm => ?_, fun admits => ?_⟩
  · simp [Main.run]
  · have hv : validPatterns sampleAnalyzer.config.FilePatterns = ["*.go".toList] := by decide
    have hrun := plugin_run_ok admits sampleAnalyzer
      (fun _ _ => .received 200 looksFineBody (.ok looksFineResponse)) samplePass
      (by decide)
      (by
        rw [hv]
        intro p hp
        rw [List.mem_singleton] at hp
        rw [hp]
        exact hadm)
      (by rw [hv]; simp)
    rw [hrun]
    exact ⟨rfl, by decide, by decide⟩
  · simp [Plugin.LLMCiAnalyzer.run]

/-- Claim C7: an enabled command-line run with an empty token, and a plugin run with an
empty token, return the error `API token is required` with an empty trace: no pattern
is compiled, no file is rendered, no request is sent and no diagnostic is reported,
whatever the patterns and the files. -/
theorem run_token_required (admits : Str → Bool) (flags : Main.Flags)
    (a : Plugin.LLMCiAnalyzer)
    (net : SourceFile → HttpRequest Main.OpenAIRequest → Exchange)
    (pnet : SourceFile → HttpRequest Plugin.OpenAIRequest → Exchange) (pass : Pass)
    (he : flags.enabled = true) (ht : flags.apiToken = []) (hp : a.config.APIToken = []) :
    Main.run admits flags net pass = (some (.message "API token is required".toList), []) ∧
      a.run admits pnet pass = (some (.message "API token is required".toList), []) := by
  constructor
  · simp [Main.run, he, ht]
  · simp [Plugin.LLMCiAnalyzer.run, hp]

/-- Claim C7 on an enabled run over `pkg/a.go` with the token left empty. -/
theorem run_token_required_witness :
    (({ sampleFlags with apiToken := [] } : Main.Flags).enabled = true ∧
      ({ sampleFlags with apiToken := [] } : Main.Flags).apiToken = []) ∧
    Main.run admitShort { sampleFlags with apiToken := [] }
        (fun _ _ => .received 200 looksFineBody (.ok looksFineResponse)) samplePass
      = (some (.message "API token is required".toList), []) :=
  ⟨⟨rfl, rfl⟩,
    (run_token_required admitShort { sampleFlags with apiToken := [] }
      { config := { sampleAnalyzer.config with APIToken := [] } }
      (fun _ _ => .received 200 looksFineBody (.ok looksFineResponse))
      (fun _ _ => .received 200 looksFineBody (.ok looksFineResponse)) samplePass
      rfl rfl rfl).1⟩

/-- Claim C8, as stated, fails behind the gates of `run`: with patterns that are all
blank, an enabled command-line run with an empty token returns the error `API token is
required`, and a run with the switch off returns no error, instead of the error
`no valid file patterns specified`. -/
theorem blank_patterns_behind_gates :
    (∀ p ∈ Strings.Split " ,\t, ".toList ',', Strings.TrimSpace p = []) ∧
    (∀ admits : Str → Bool,
      Main.run admits { sampleFlags with filePatterns := " ,\t, ".toList, apiToken := [] }
          (fun _ _ => .received 200 looksFineBody (.ok looksFineResponse)) samplePass
        = (some (.message "API token is required".toList), [])) ∧
    (∀ admits : Str → Bool,
      Main.run admits { sampleFlags with filePatterns := " ,\t, ".toList, enabled := false }
          (fun _ _ => .received 200 looksFineBody (.ok looksFineResponse)) samplePass
        = (none, [])) := by
  refine ⟨by decide, fun admits => ?_, fun admits => ?_⟩
  · simp [Main.run, sampleFlags]
  · simp [Main.run]

/-- Claim C8, amended: in both packages, whenever the first loop of `run` completes it
yields one matcher for each pattern that is not empty once trimmed, in the same order,
each being the compiled translation of the trimmed pattern; it completes when the
translation of every such pattern compiles, and otherwise returns the error `invalid
file pattern` for one whose translation does not; and a run that is past the switch and
the token test and whose patterns are all empty or made of white space returns the
error `no valid file patterns specified` with an empty trace: no file is reviewed and
no diagnostic is reported. -/
theorem run_valid_patterns (admits : Str → Bool) (pats : List Str) (flags : Main.Flags)
    (a : Plugin.LLMCiAnalyzer)
    (net : SourceFile → HttpRequest Main.OpenAIRequest → Exchange)
    (pnet : SourceFile → HttpRequest Plugin.OpenAIRequest → Exchange) (pass : Pass)
    (he : flags.enabled = true) (ht : flags.apiToken ≠ [])
    (hb : ∀ p ∈ Strings.Split flags.filePatterns ',', Strings.TrimSpace p = [])
    (hpt : a.config.APIToken ≠ [])
    (hpb : ∀ p ∈ a.config.FilePatterns, Strings.TrimSpace p = []) :
    (∀ regexps, (Main.compileLoop admits pats []).1 = .inr regexps →
      List.Forall₂ (fun p re => Regexp.Compile admits (Main.globToRegex p) = some re)
        (validPatterns pats) regexps) ∧
    ((∀ p ∈ validPatterns pats, Regexp.Compile admits (Main.globToRegex p) ≠ none) →
      ∃ regexps, (Main.compileLoop admits pats []).1 = .inr regexps) ∧
    ((∃ p ∈ validPatterns pats, Regexp.Compile admits (Main.globToRegex p) = none) →
      ∃ p ∈ validPatterns pats, Regexp.Compile admits (Main.globToRegex p) = none ∧
        (Main.compileLoop admits pats []).1 = .inl (.invalidPattern p)) ∧
    (∀ regexps, (Plugin.compileLoop admits pats []).1 = .inr regexps →
      List.Forall₂ (fun p re => Regexp.Compile admits (Plugin.globToRegex p) = some re)
        (validPatterns pats) regexps) ∧
    ((∀ p ∈ validPatterns pats, Regexp.Compile admits (Plugin.globToRegex p) ≠ none) →
      ∃ regexps, (Plugin.compileLoop admits pats []).1 = .inr regexps) ∧
    ((∃ p ∈ validPatterns pats, Regexp.Compile admits (Plugin.globToRegex p) = none) →
      ∃ p ∈ validPatterns pats, Regexp.Compile admits (Plugin.globToRegex p) = none ∧
        (Plugin.compileLoop admits pats []).1 = .inl (.invalidPattern p)) ∧
    Main.run admits flags net pass
      = (some (.message "no valid file patterns specified".toList), []) ∧
    a.run admits pnet pass
      = (some (.message "no valid file patterns specified".toList), []) := by
  have hinr : ∀ regexps, (Main.compileLoop admits pats []).1 = .inr regexps →
      List.Forall₂ (fun p re => Regexp.Compile admits (Main.globToRegex p) = some re)
        (validPatterns pats) regexps := by
    intro regexps h
    obtain ⟨hr, hall⟩ := main_compileLoop_inr admits pats regexps h
    rw [hr]
    exact forall₂_matcherOf admits _ hall
  have hok : (∀ p ∈ validPatterns pats, Regexp.Compile admits (Main.globToRegex p) ≠ none) →
      ∃ regexps, (Main.compileLoop admits pats []).1 = .inr regexps := by
    intro h
    have hall : ∀ p ∈ validPatterns pats, admits (Main.globToRegex p) = true :=
      fun p hp => (compile_ne_none_iff admits p).mp (h p hp)
    exact ⟨_, by rw [main_compileLoop_ok admits pats [] hall]⟩
  have hfail : (∃ p ∈ validPatterns pats, Regexp.Compile admits (Main.globToRegex p) = none) →
      ∃ p ∈ validPatterns pats, Regexp.Compile admits (Main.globToRegex p) = none ∧
        (Main.compileLoop admits pats []).1 = .inl (.invalidPattern p) := by
    rintro ⟨p, hp, hc⟩
    have hpa : admits (Main.globToRegex p) = false := by
      by_contra hne
      exact (compile_ne_none_iff admits p).mpr (by simpa using hne) hc
    obtain ⟨q, hq, hqa, hr, -⟩ := main_compileLoop_fail admits pats [] ⟨p, hp, hpa⟩
    refine ⟨q, hq, ?_, hr⟩
    rw [compile_globToRegex, hqa]
    simp
  refine ⟨hinr, hok, hfail, ?_, ?_, ?_, ?_, ?_⟩
  · intro regexps h
    rw [plugin_compileLoop_fst] at h
    exact hinr regexps h
  · intro h
    obtain ⟨regexps, hr⟩ := hok h
    exact ⟨regexps, by rw [plugin_compileLoop_fst]; exact hr⟩
  · intro h
    obtain ⟨q, hq, hc, hr⟩ := hfail h
    exact ⟨q, hq, hc, by rw [plugin_compileLoop_fst]; exact hr⟩
  · have hv := validPatterns_blank _ hb
    have hl := main_compileLoop_ok admits (Strings.Split flags.filePatterns ',') []
      (by rw [hv]; simp)
    simp [Main.run, he, ht, hl, hv]
  · have hv := validPatterns_blank _ hpb
    have hl := plugin_compileLoop_ok admits a.config.FilePatterns [] (by rw [hv]; simp)
    simp [Plugin.LLMCiAnalyzer.run, hpt, hl, hv]

/-- Claim C8, amended, on the pattern list ` ,*.go,,main.go ` for the loop, and on an
enabled run with a token whose patterns are blank, under a library limit that admits
short expressions. -/
theorem run_valid_patterns_witness :
    (sampleFlags.enabled = true ∧ sampleFlags.apiToken ≠ [] ∧
      validPatterns (Strings.Split " ,\t, ".toList ',') = []) ∧
    (∃ regexps,
      (Main.compileLoop admitShort [" ".toList, "*.go".toList, [], "main.go ".toList] []).1
        = .inr regexps ∧
      List.Forall₂ (fun p re => Regexp.Compile admitShort (Main.globToRegex p) = some re)
        ["*.go".toList, "main.go".toList] regexps) ∧
    Main.run admitShort { sampleFlags with filePatterns := " ,\t, ".toList }
        (fun _ _ => .received 200 looksFineBody (.ok looksFineResponse)) samplePass
      = (some (.message "no valid file patterns specified".toList), []) := by
  have h := run_valid_patterns admitShort [" ".toList, "*.go".toList, [], "main.go ".toList]
    { sampleFlags with filePatterns := " ,\t, ".toList }
    { config := { sampleAnalyzer.config with FilePatterns := [" ".toList, []] } }
    (fun _ _ => .received 200 looksFineBody (.ok looksFineResponse))
    (fun _ _ => .received 200 looksFineBody (.ok looksFineResponse)) samplePass
    rfl (by decide) (by decide) (by decide) (by decide)
  obtain ⟨regexps, hr⟩ := h.2.1 (by decide)
  exact ⟨⟨rfl, by decide, by decide⟩, ⟨regexps, hr, h.1 regexps hr⟩, h.2.2.2.2.2.2.1⟩

/-! ## The second loop of `run` -/

theorem main_matched_iff (regexps : List Regexp.Regexp) (basename filename : Str) :
    Main.matched regexps basename filename = true ↔
      ∃ re ∈ regexps, re.MatchString basename = true ∨ re.MatchString filename = true := by
  induction regexps with
  | nil => simp [Main.matched]
  | cons re rest ih =>
    by_cases h : (re.MatchString basename || re.MatchString filename) = true
    · have h' := h
      simp only [Bool.or_eq_true] at h'
      simp [Main.matched, h, h']
    · have h' : ¬ (re.MatchString basename = true ∨ re.MatchString filename = true) := by
        simpa using h
      rw [Main.matched, if_neg h, ih]
      simp [h']

theorem plugin_matched_iff (regexps : List Regexp.Regexp) (basename filename : Str) :
    Plugin.matched regexps basename filename = true ↔
      ∃ re ∈ regexps, re.MatchString basename = true ∨ re.MatchString filename = true := by
  induction regexps with
  | nil => simp [Plugin.matched]
  | cons re rest ih =>
    by_cases h : (re.MatchString basename || re.MatchString filename) = true
    · have h' := h
      simp only [Bool.or_eq_true] at h'
      simp [Plugin.matched, h, h']
    · have h' : ¬ (re.MatchString basename = true ∨ re.MatchString filename = true) := by
        simpa using h
      rw [Plugin.matched, if_neg h, ih]
      simp [h']

/-- The calls of `analyzeWithLLM` are requests only (command-line analyzer). -/
theorem main_analyzeWithLLM_trace (flags : Main.Flags)
    (net : HttpRequest Main.OpenAIRequest → Exchange) (content filename : Str) :
    diagnostics (Main.analyzeWithLLM flags net content filename).2 = [] ∧
      renders (Main.analyzeWithLLM flags net content filename).2 = [] := by
  unfold Main.analyzeWithLLM
  dsimp only
  constructor <;> (repeat' split) <;> simp [diagnostics, renders]

/-- The calls of `analyzeWithLLM` are requests only (plugin). -/
theorem plugin_analyzeWithLLM_trace (a : Plugin.LLMCiAnalyzer)
    (net : HttpRequest Plugin.OpenAIRequest → Exchange) (content filename : Str) :
    diagnostics (a.analyzeWithLLM net content filename).2 = [] ∧
      renders (a.analyzeWithLLM net content filename).2 = [] := by
  unfold Plugin.LLMCiAnalyzer.analyzeWithLLM
  dsimp only
  constructor <;> (repeat' split) <;> simp [diagnostics, renders]

/-- The second loop of the command-line `run` passes over the files that no matcher
accepts. -/
theorem main_fileLoop_filter (flags : Main.Flags)
    (net : SourceFile → HttpRequest Main.OpenAIRequest → Exchange)
    (regexps : List Regexp.Regexp) (files : List SourceFile) :
    Main.fileLoop flags net regexps files
      = Main.fileLoop flags net regexps
          (files.filter (fun f => Main.matched regexps (Filepath.Base f.filename) f.filename)) := by
  induction files with
  | nil => rfl
  | cons f files ih =>
    by_cases hm : Main.matched regexps (Filepath.Base f.filename) f.filename = true
    · rw [List.filter_cons, if_pos hm]
      simp only [Main.fileLoop, hm, ← ih]
    · simp only [Bool.not_eq_true] at hm
      rw [List.filter_cons, if_neg (by simp [hm])]
      simp only [Main.fileLoop, hm, ← ih]
      simp

/-- The second loop of the plugin `run` passes over the files that no matcher accepts. -/
theorem plugin_fileLoop_filter (a : Plugin.LLMCiAnalyzer)
    (net : SourceFile → HttpRequest Plugin.OpenAIRequest → Exchange)
    (regexps : List Regexp.Regexp) (files : List SourceFile) :
    a.fileLoop net regexps files
      = a.fileLoop net regexps
          (files.filter (fun f => Plugin.matched regexps (Filepath.Base f.filename) f.filename)) := by
  induction files with
  | nil => rfl
  | cons f files ih =>
    by_cases hm : Plugin.matched regexps (Filepath.Base f.filename) f.filename = true
    · rw [List.filter_cons, if_pos hm]
      simp only [Plugin.LLMCiAnalyzer.fileLoop, hm, ← ih]
    · simp only [Bool.not_eq_true] at hm
      rw [List.filter_cons, if_neg (by simp [hm])]
      simp only [Plugin.LLMCiAnalyzer.fileLoop, hm, ← ih]
      simp

/-- The files rendered by the second loop of the command-line `run` are the files
that a matcher accepts, in their order. -/
theorem main_fileLoop_renders (flags : Main.Flags)
    (net : SourceFile → HttpRequest Main.OpenAIRequest → Exchange)
    (regexps : List Regexp.Regexp) (files : List SourceFile) :
    renders (Main.fileLoop flags net regexps files)
      = (files.filter (fun f => Main.matched regexps (Filepath.Base f.filename) f.filename)).map
          (fun f => f.pos) := by
  induction files with
  | nil => rfl
  | cons f files ih =>
    by_cases hm : Main.matched regexps (Filepath.Base f.filename) f.filename = true
    · rw [List.filter_cons, if_pos hm]
      have ht := fun c n => (main_analyzeWithLLM_trace flags (net f) c n).2
      simp only [Main.fileLoop, hm]
      cases hf : Main.getFileContent f with
      | err e => simp [renders, ih]
      | ok content =>
        simp only [Bool.not_true, Bool.false_eq_true, if_false]
        cases hr : (Main.analyzeWithLLM flags (net f) content f.filename).1 with
        | err e => simp [renders, renders_append, ht, ih]
        | ok analysis =>
          by_cases han : analysis = [] <;> simp [renders, renders_append, ht, ih, han]
    · simp only [Bool.not_eq_true] at hm
      rw [List.filter_cons, if_neg (by simp [hm])]
      simp [Main.fileLoop, hm, ih]

/-- The files rendered by the second loop of the plugin `run` are the files that a
matcher accepts, in their order. -/
theorem plugin_fileLoop_renders (a : Plugin.LLMCiAnalyzer)
    (net : SourceFile → HttpRequest Plugin.OpenAIRequest → Exchange)
    (regexps : List Regexp.Regexp) (files : List SourceFile) :
    renders (a.fileLoop net regexps files)
      = (files.filter
          (fun f => Plugin.matched regexps (Filepath.Base f.filename) f.filename)).map
          (fun f => f.pos) := by
  induction files with
  | nil => rfl
  | cons f files ih =>
    by_cases hm : Plugin.matched regexps (Filepath.Base f.filename) f.filename = true
    · rw [List.filter_cons, if_pos hm]
      have ht := fun c n => (plugin_analyzeWithLLM_trace a (net f) c n).2
      simp only [Plugin.LLMCiAnalyzer.fileLoop, hm]
      cases hf : Plugin.getFileContent f with
      | err e => simp [renders, ih]
      | ok content =>
        simp only [Bool.not_true, Bool.false_eq_true, if_false]
        cases hr : (a.analyzeWithLLM (net f) content f.filename).1 with
        | err e => simp [renders, renders_append, ht, ih]
        | ok analysis =>
          by_cases han : analysis = [] <;> simp [renders, renders_append, ht, ih, han]
    · simp only [Bool.not_eq_true] at hm
      rw [List.filter_cons, if_neg (by simp [hm])]
      simp [Plugin.LLMCiAnalyzer.fileLoop, hm, ih]

/-- Claim C9: in both packages, for every set of matchers and every file, the flag
`matched` is set exactly when some matcher of the set matches the base name of the
file or its full name; the files rendered by the second loop of `run` are exactly the
files so matched, in their order; and the trace of the loop is the trace of the loop
over the matched files alone, so that a file that no matcher matches is not rendered,
not sent to the endpoint and gets no diagnostic. -/
theorem matched_files_only (flags : Main.Flags) (a : Plugin.LLMCiAnalyzer)
    (net : SourceFile → HttpRequest Main.OpenAIRequest → Exchange)
    (pnet : SourceFile → HttpRequest Plugin.OpenAIRequest → Exchange)
    (regexps : List Regexp.Regexp) (files : List SourceFile) (file : SourceFile) :
    (Main.matched regexps (Filepath.Base file.filename) file.filename = true ↔
      ∃ re ∈ regexps, re.MatchString (Filepath.Base file.filename) = true
        ∨ re.MatchString file.filename = true) ∧
    (Plugin.matched regexps (Filepath.Base file.filename) file.filename = true ↔
      ∃ re ∈ regexps, re.MatchString (Filepath.Base file.filename) = true
        ∨ re.MatchString file.filename = true) ∧
    renders (Main.fileLoop flags net regexps files)
      = (files.filter (fun f => Main.matched regexps (Filepath.Base f.filename) f.filename)).map
          (fun f => f.pos) ∧
    renders (a.fileLoop pnet regexps files)
      = (files.filter
          (fun f => Plugin.matched regexps (Filepath.Base f.filename) f.filename)).map
          (fun f => f.pos) ∧
    Main.fileLoop flags net regexps files
      = Main.fileLoop flags net regexps
          (files.filter (fun f => Main.matched regexps (Filepath.Base f.filename) f.filename)) ∧
    a.fileLoop pnet regexps files
      = a.fileLoop pnet regexps
          (files.filter
            (fun f => Plugin.matched regexps (Filepath.Base f.filename) f.filename)) :=
  ⟨main_matched_iff _ _ _, plugin_matched_iff _ _ _, main_fileLoop_renders _ _ _ _,
    plugin_fileLoop_renders _ _ _ _, main_fileLoop_filter _ _ _ _,
    plugin_fileLoop_filter _ _ _ _⟩

/-- The diagnostics of the second loop of the command-line `run`: the diagnostic of
each file, in the order of the files. -/
theorem main_fileLoop_diagnostics (flags : Main.Flags)
    (net : SourceFile → HttpRequest Main.OpenAIRequest → Exchange)
    (regexps : List Regexp.Regexp) (files : List SourceFile) :
    diagnostics (Main.fileLoop flags net regexps files)
      = files.filterMap (Main.fileDiagnostic flags net regexps) := by
  induction files with
  | nil => rfl
  | cons f files ih =>
    have ht := fun c n => (main_analyzeWithLLM_trace flags (net f) c n).1
    by_cases hm : Main.matched regexps (Filepath.Base f.filename) f.filename = true
    · simp only [Main.fileLoop, hm, List.filterMap_cons, Main.fileDiagnostic]
      cases hf : Main.getFileContent f with
      | err e => simp [diagnostics, ih]
      | ok content =>
        simp only [Bool.not_true, Bool.false_eq_true, if_false, if_true]
        cases hr : (Main.analyzeWithLLM flags (net f) content f.filename).1 with
        | err e => simp [diagnostics, diagnostics_append, ht, ih]
        | ok analysis =>
          by_cases han : analysis = [] <;>
            simp [diagnostics, diagnostics_append, ht, ih, han]
    · simp only [Bool.not_eq_true] at hm
      simp [Main.fileLoop, hm, Main.fileDiagnostic, ih]

/-- The diagnostics of the second loop of the plugin `run`: the diagnostic of each file,
in the order of the files. -/
theorem plugin_fileLoop_diagnostics (a : Plugin.LLMCiAnalyzer)
    (net : SourceFile → HttpRequest Plugin.OpenAIRequest → Exchange)
    (regexps : List Regexp.Regexp) (files : List SourceFile) :
    diagnostics (a.fileLoop net regexps files)
      = files.filterMap (a.fileDiagnostic net regexps) := by
  induction files with
  | nil => rfl
  | cons f files ih =>
    have ht := fun c n => (plugin_analyzeWithLLM_trace a (net f) c n).1
    by_cases hm : Plugin.matched regexps (Filepath.Base f.filename) f.filename = true
    · simp only [Plugin.LLMCiAnalyzer.fileLoop, hm, List.filterMap_cons,
        Plugin.LLMCiAnalyzer.fileDiagnostic]
      cases hf : Plugin.getFileContent f with
      | err e => simp [diagnostics, ih]
      | ok content =>
        simp only [Bool.not_true, Bool.false_eq_true, if_false, if_true]
        cases hr : (a.analyzeWithLLM (net f) content f.filename).1 with
        | err e => simp [diagnostics, diagnostics_append, ht, ih]
        | ok analysis =>
          by_cases han : analysis = [] <;>
            simp [diagnostics, diagnostics_append, ht, ih, han]
    · simp only [Bool.not_eq_true] at hm
      simp [Plugin.LLMCiAnalyzer.fileLoop, hm, Plugin.LLMCiAnalyzer.fileDiagnostic, ih]

/-- A file gets no diagnostic exactly when no matcher accepts it or its review comes
back empty (command-line analyzer). -/
theorem main_fileDiagnostic_eq_none (flags : Main.Flags)
    (net : SourceFile → HttpRequest Main.OpenAIRequest → Exchange)
    (regexps : List Regexp.Regexp) (f : SourceFile) :
    Main.fileDiagnostic flags net regexps f = none ↔
      Main.matched regexps (Filepath.Base f.filename) f.filename = false
        ∨ Main.emptyReview flags net f := by
  unfold Main.fileDiagnostic Main.emptyReview
  by_cases hm : Main.matched regexps (Filepath.Base f.filename) f.filename = true
  · simp only [hm, if_true, Bool.true_eq_false, false_or]
    cases hf : Main.getFileContent f with
    | err e => simp
    | ok content =>
      cases hr : (Main.analyzeWithLLM flags (net f) content f.filename).1 with
      | err e => simp [hr]
      | ok analysis => by_cases han : analysis = [] <;> simp [hr, han]
  · simp only [Bool.not_eq_true] at hm
    simp [hm]

/-- A file gets no diagnostic exactly when no matcher accepts it or its review comes
back empty (plugin). -/
theorem plugin_fileDiagnostic_eq_none (a : Plugin.LLMCiAnalyzer)
    (net : SourceFile → HttpRequest Plugin.OpenAIRequest → Exchange)
    (regexps : List Regexp.Regexp) (f : SourceFile) :
    a.fileDiagnostic net regexps f = none ↔
      Plugin.matched regexps (Filepath.Base f.filename) f.filename = false
        ∨ a.emptyReview net f := by
  unfold Plugin.LLMCiAnalyzer.fileDiagnostic Plugin.LLMCiAnalyzer.emptyReview
  by_cases hm : Plugin.matched regexps (Filepath.Base f.filename) f.filename = true
  · simp only [hm, if_true, Bool.true_eq_false, false_or]
    cases hf : Plugin.getFileContent f with
    | err e => simp
    | ok content =>
      cases hr : (a.analyzeWithLLM (net f) content f.filename).1 with
      | err e => simp [hr]
      | ok analysis => by_cases han : analysis = [] <;> simp [hr, han]
  · simp only [Bool.not_eq_true] at hm
    simp [hm]

/-- The diagnostic of a file, when there is one, is reported at the position of the file
(command-line analyzer). -/
theorem main_fileDiagnostic_pos (flags : Main.Flags)
    (net : SourceFile → HttpRequest Main.OpenAIRequest → Exchange)
    (regexps : List Regexp.Regexp) (f : SourceFile) (d : Nat × Str)
    (h : Main.fileDiagnostic flags net regexps f = some d) : d.1 = f.pos := by
  unfold Main.fileDiagnostic at h
  repeat' split at h
  all_goals first
    | (simp only [Option.some.injEq] at h; rw [← h])
    | exact absurd h (by simp)

/-- The diagnostic of a file, when there is one, is reported at the position of the file
(plugin). -/
theorem plugin_fileDiagnostic_pos (a : Plugin.LLMCiAnalyzer)
    (net : SourceFile → HttpRequest Plugin.OpenAIRequest → Exchange)
    (regexps : List Regexp.Regexp) (f : SourceFile) (d : Nat × Str)
    (h : a.fileDiagnostic net regexps f = some d) : d.1 = f.pos := by
  unfold Plugin.LLMCiAnalyzer.fileDiagnostic at h
  repeat' split at h
  all_goals first
    | (simp only [Option.some.injEq] at h; rw [← h])
    | exact absurd h (by simp)

theorem diagnostics_compile {Body : Type} (g : Str → Str) (pats : List Str) :
    diagnostics (pats.map (fun p => (Event.compile (g p) : Event Body))) = [] := by
  induction pats with
  | nil => rfl
  | cons p pats ih => simp [diagnostics, ih]

/-- Claim C10, as stated, fails on a review that comes back empty: an enabled
command-line run with a token and the pattern `*.go`, whenever the library admits the
translation of the pattern, renders the matching file `pkg/a.go`, receives a first
choice with an empty content, returns no error and reports no diagnostic for the
file; so it does under a library limit that admits short expressions. -/
theorem empty_review_no_diagnostic :
    sampleFlags.enabled = true ∧ sampleFlags.apiToken ≠ [] ∧
    Main.matched [matcherOf "*.go".toList] (Filepath.Base "pkg/a.go".toList)
        "pkg/a.go".toList = true ∧
    (∀ admits : Str → Bool, admits (Main.globToRegex "*.go".toList) = true →
      (Main.run admits sampleFlags
          (fun _ _ => .received 200 emptyContentBody (.ok emptyContentResponse)) samplePass).1
        = none ∧
      renders (Main.run admits sampleFlags
          (fun _ _ => .received 200 emptyContentBody (.ok emptyContentResponse)) samplePass).2
        = [1] ∧
      diagnostics (Main.run admits sampleFlags
          (fun _ _ => .received 200 emptyContentBody (.ok emptyContentResponse)) samplePass).2
        = []) ∧
    diagnostics (Main.run admitShort sampleFlags
        (fun _ _ => .received 200 emptyContentBody (.ok emptyContentResponse)) samplePass).2
      = [] := by
  refine ⟨rfl, by decide, by decide, fun admits hadm => ?_, by decide⟩
  have hv : validPatterns (Strings.Split sampleFlags.filePatterns ',') = ["*.go".toList] := by
    decide
  have hrun := main_run_ok admits sampleFlags
    (fun _ _ => .received 200 emptyContentBody (.ok emptyContentResponse)) samplePass
    rfl (by decide)
    (by
      rw [hv]
      intro p hp
      rw [List.mem_singleton] at hp
      rw [hp]
      exact hadm)
    (by rw [hv]; simp)
  rw [hrun]
  exact ⟨rfl, by decide, by decide⟩

/-- Claim C10, amended: in both packages, a run that is past the switch and the token test,
has at least one pattern that is not empty once trimmed and whose patterns all compile,
compiles a non-empty set of matchers and returns no error, whatever happens on the
files; its diagnostics are, in the order of the files, the diagnostic of each file; a
file has exactly one diagnostic, at its own position, when a matcher accepts it,
whether its rendering fails, its review fails or its review succeeds with a non-empty
text, and has none when no matcher accepts it or when its review succeeds with the
empty string. -/
theorem run_diagnostics (admits : Str → Bool) (flags : Main.Flags)
    (a : Plugin.LLMCiAnalyzer)
    (net : SourceFile → HttpRequest Main.OpenAIRequest → Exchange)
    (pnet : SourceFile → HttpRequest Plugin.OpenAIRequest → Exchange) (pass : Pass)
    (he : flags.enabled = true) (ht : flags.apiToken ≠ [])
    (hv : ∃ p ∈ Strings.Split flags.filePatterns ',', Strings.TrimSpace p ≠ [])
    (hc : ∀ p ∈ validPatterns (Strings.Split flags.filePatterns ','),
      Regexp.Compile admits (Main.globToRegex p) ≠ none)
    (hpt : a.config.APIToken ≠ [])
    (hpv : ∃ p ∈ a.config.FilePatterns, Strings.TrimSpace p ≠ [])
    (hpc : ∀ p ∈ validPatterns a.config.FilePatterns,
      Regexp.Compile admits (Plugin.globToRegex p) ≠ none) :
    (∃ regexps,
      (Main.compileLoop admits (Strings.Split flags.filePatterns ',') []).1 = .inr regexps ∧
      regexps ≠ [] ∧
      (Main.run admits flags net pass).1 = none ∧
      diagnostics (Main.run admits flags net pass).2
        = pass.Files.filterMap (Main.fileDiagnostic flags net regexps) ∧
      (∀ f, Main.fileDiagnostic flags net regexps f = none ↔
        Main.matched regexps (Filepath.Base f.filename) f.filename = false
          ∨ Main.emptyReview flags net f) ∧
      (∀ f d, Main.fileDiagnostic flags net regexps f = some d → d.1 = f.pos)) ∧
    (∃ regexps, (Plugin.compileLoop admits a.config.FilePatterns []).1 = .inr regexps ∧
      regexps ≠ [] ∧
      (a.run admits pnet pass).1 = none ∧
      diagnostics (a.run admits pnet pass).2
        = pass.Files.filterMap (a.fileDiagnostic pnet regexps) ∧
      (∀ f, a.fileDiagnostic pnet regexps f = none ↔
        Plugin.matched regexps (Filepath.Base f.filename) f.filename = false
          ∨ a.emptyReview pnet f) ∧
      (∀ f d, a.fileDiagnostic pnet regexps f = some d → d.1 = f.pos)) := by
  obtain ⟨p, hp, hpne⟩ := hv
  obtain ⟨q, hq, hqne⟩ := hpv
  have hn := validPatterns_ne_nil _ p hp hpne
  have hpn := validPatterns_ne_nil _ q hq hqne
  have hadm : ∀ p ∈ validPatterns (Strings.Split flags.filePatterns ','),
      admits (Main.globToRegex p) = true :=
    fun p hp => (compile_ne_none_iff admits p).mp (hc p hp)
  have hpadm : ∀ p ∈ validPatterns a.config.FilePatterns,
      admits (Plugin.globToRegex p) = true :=
    fun p hp => (compile_ne_none_iff admits p).mp (hpc p hp)
  constructor
  · refine ⟨(validPatterns (Strings.Split flags.filePatterns ',')).map matcherOf, ?_, ?_, ?_, ?_,
      main_fileDiagnostic_eq_none flags net _, main_fileDiagnostic_pos flags net _⟩
    · rw [main_compileLoop_ok admits _ [] hadm]
      simp
    · simpa using hn
    · rw [main_run_ok admits flags net pass he ht hadm hn]
    · rw [main_run_ok admits flags net pass he ht hadm hn]
      simp [diagnostics_append, diagnostics_compile, main_fileLoop_diagnostics]
  · refine ⟨(validPatterns a.config.FilePatterns).map matcherOf, ?_, ?_, ?_, ?_,
      plugin_fileDiagnostic_eq_none a pnet _, plugin_fileDiagnostic_pos a pnet _⟩
    · rw [plugin_compileLoop_ok admits _ [] hpadm]
      simp
    · simpa using hpn
    · rw [plugin_run_ok admits a pnet pass hpt hpadm hpn]
    · rw [plugin_run_ok admits a pnet pass hpt hpadm hpn]
      simp [diagnostics_append, diagnostics_compile, plugin_fileLoop_diagnostics]

/-- Claim C10, amended, on an enabled run over `pkg/a.go` with the pattern `*.go`, a
token, a library limit that admits short expressions and an endpoint that answers
`looks fine`. -/
theorem run_diagnostics_witness :
    (sampleFlags.enabled = true ∧ sampleFlags.apiToken ≠ [] ∧
      (∃ p ∈ Strings.Split sampleFlags.filePatterns ',', Strings.TrimSpace p ≠ []) ∧
      (∀ p ∈ validPatterns (Strings.Split sampleFlags.filePatterns ','),
        Regexp.Compile admitShort (Main.globToRegex p) ≠ none)) ∧
    (Main.run admitShort sampleFlags
        (fun _ _ => .received 200 looksFineBody (.ok looksFineResponse)) samplePass).1 = none ∧
    diagnostics (Main.run admitShort sampleFlags
        (fun _ _ => .received 200 looksFineBody (.ok looksFineResponse)) samplePass).2
      = [(1, "LLM Analysis for a.go:\nlooks fine".toList)] := by
  have hv : ∃ p ∈ Strings.Split sampleFlags.filePatterns ',', Strings.TrimSpace p ≠ [] :=
    ⟨"*.go".toList, by decide, by decide⟩
  have hc : ∀ p ∈ validPatterns (Strings.Split sampleFlags.filePatterns ','),
      Regexp.Compile admitShort (Main.globToRegex p) ≠ none := by decide
  have h := run_diagnostics admitShort sampleFlags sampleAnalyzer
    (fun _ _ => .received 200 looksFineBody (.ok looksFineResponse))
    (fun _ _ => .received 200 looksFineBody (.ok looksFineResponse)) samplePass
    rfl (by decide) hv hc (by decide) ⟨"*.go".toList, by decide, by decide⟩ (by decide)
  obtain ⟨regexps, -, -, herr, -, -, -⟩ := h.1
  exact ⟨⟨rfl, by decide, hv, hc⟩, herr, by decide⟩

/-! ## The request built by `analyzeWithLLM` -/

/-- The requests sent by the command-line `analyzeWithLLM` carry the request value built
at its head. -/
theorem main_analyzeWithLLM_body (flags : Main.Flags)
    (net : HttpRequest Main.OpenAIRequest → Exchange) (content filename : Str) :
    (networkCalls (Main.analyzeWithLLM flags net content filename).2).map (fun r => r.body)
      = (networkCalls (Main.analyzeWithLLM flags net content filename).2).map
          (fun _ => Main.buildRequest flags content filename) := by
  unfold Main.analyzeWithLLM
  dsimp only
  (repeat' split) <;> simp [networkCalls]

/-- The requests sent by the plugin `analyzeWithLLM` carry the request value built at
its head. -/
theorem plugin_analyzeWithLLM_body (a : Plugin.LLMCiAnalyzer)
    (net : HttpRequest Plugin.OpenAIRequest → Exchange) (content filename : Str) :
    (networkCalls (a.analyzeWithLLM net content filename).2).map (fun r => r.body)
      = (networkCalls (a.analyzeWithLLM net content filename).2).map
          (fun _ => a.buildRequest content filename) := by
  unfold Plugin.LLMCiAnalyzer.analyzeWithLLM
  dsimp only
  (repeat' split) <;> simp [networkCalls]

/-- Whenever a response arrives, exactly one request was sent, with the built value as
its body (command-line analyzer). -/
theorem main_analyzeWithLLM_sent (flags : Main.Flags) (content filename : Str)
    (status : Nat) (body : Str) (decoded : Res OpenAIResponse) :
    (networkCalls (Main.analyzeWithLLM flags (fun _ => .received status body decoded)
        content filename).2).map (fun r => r.body)
      = [Main.buildRequest flags content filename] := by
  cases decoded with
  | err e => simp [Main.analyzeWithLLM, networkCalls]
  | ok resp =>
    simp only [Main.analyzeWithLLM]
    (repeat' split) <;> simp [networkCalls]

/-- Whenever a response arrives, exactly one request was sent, with the built value as
its body (plugin). -/
theorem plugin_analyzeWithLLM_sent (a : Plugin.LLMCiAnalyzer) (content filename : Str)
    (status : Nat) (body : Str) (decoded : Res OpenAIResponse) :
    (networkCalls (a.analyzeWithLLM (fun _ => .received status body decoded)
        content filename).2).map (fun r => r.body)
      = [a.buildRequest content filename] := by
  cases decoded with
  | err e => simp [Plugin.LLMCiAnalyzer.analyzeWithLLM, networkCalls]
  | ok resp =>
    simp only [Plugin.LLMCiAnalyzer.analyzeWithLLM]
    (repeat' split) <;> simp [networkCalls]

/-- Claim C11 on the code: the request of the command-line client carries the model
`gpt-3.5-turbo` whatever the flags, a string that is none of the values of the sample
configuration, and so does the request it sends when a response arrives; the request
of the plugin carries the model of its configuration. -/
theorem cli_model_is_constant :
    (∀ (flags : Main.Flags) (content filename : Str),
      (Main.buildRequest flags content filename).Model = "gpt-3.5-turbo".toList) ∧
    "gpt-3.5-turbo".toList ∉
      [sampleFlags.filePatterns, sampleFlags.prompt, sampleFlags.apiURL, sampleFlags.apiToken] ∧
    (networkCalls (Main.analyzeWithLLM sampleFlags
        (fun _ => .received 200 looksFineBody (.ok looksFineResponse))
        "package main".toList "test.go".toList).2).map (fun r => r.body.Model)
      = ["gpt-3.5-turbo".toList] ∧
    (∀ (a : Plugin.LLMCiAnalyzer) (content filename : Str),
      (a.buildRequest content filename).Model = a.config.Model) := by
  refine ⟨fun _ _ _ => rfl, by decide, by decide, fun _ _ _ => rfl⟩

/-- The request built by `analyzeWithLLM`, in both clients: for every content, file name
and configuration, it has exactly two messages in this order, a message of role `system`
whose content is the configured prompt and a message of role `user` whose content is
the label of the file name, the file name, a blank line, the label of the code and the
content, file name and content unmodified; a request that is sent carries this value
as its body, and one is sent whenever a response arrives; in the plugin the model
field is the model of the configuration, unchanged; in the command-line client, whose
configuration has no model, the model field is the fixed string `gpt-3.5-turbo`. -/
theorem request_built (flags : Main.Flags) (a : Plugin.LLMCiAnalyzer)
    (net : HttpRequest Main.OpenAIRequest → Exchange)
    (pnet : HttpRequest Plugin.OpenAIRequest → Exchange)
    (content filename : Str) (status : Nat) (body : Str) (decoded : Res OpenAIResponse) :
    (Main.buildRequest flags content filename).Messages
      = [ ⟨"system".toList, flags.prompt⟩,
          ⟨"user".toList,
            "文件名: ".toList ++ filename ++ "\n\n".toList ++ "代码内容:\n".toList ++ content⟩ ] ∧
    (a.buildRequest content filename).Messages
      = [ ⟨"system".toList, a.config.Prompt⟩,
          ⟨"user".toList,
            "文件名: ".toList ++ filename ++ "\n\n".toList ++ "代码内容:\n".toList ++ content⟩ ] ∧
    (a.buildRequest content filename).Model = a.config.Model ∧
    (Main.buildRequest flags content filename).Model = "gpt-3.5-turbo".toList ∧
    (networkCalls (Main.analyzeWithLLM flags net content filename).2).map (fun r => r.body)
      = (networkCalls (Main.analyzeWithLLM flags net content filename).2).map
          (fun _ => Main.buildRequest flags content filename) ∧
    (networkCalls (a.analyzeWithLLM pnet content filename).2).map (fun r => r.body)
      = (networkCalls (a.analyzeWithLLM pnet content filename).2).map
          (fun _ => a.buildRequest content filename) ∧
    (networkCalls (Main.analyzeWithLLM flags (fun _ => .received status body decoded)
        content filename).2).map (fun r => r.body)
      = [Main.buildRequest flags content filename] ∧
    (networkCalls (a.analyzeWithLLM (fun _ => .received status body decoded)
        content filename).2).map (fun r => r.body)
      = [a.buildRequest content filename] := by
  refine ⟨?_, ?_, rfl, rfl, main_analyzeWithLLM_body _ _ _ _, plugin_analyzeWithLLM_body _ _ _ _,
    main_analyzeWithLLM_sent _ _ _ _ _ _, plugin_analyzeWithLLM_sent _ _ _ _ _ _⟩
  · simp [Main.buildRequest]
  · simp [Plugin.LLMCiAnalyzer.buildRequest]
